import Mathlib

set_option maxHeartbeats 1000000

namespace PB

/-- Decimal number value: the rational m / 10 ^ e, written with e digits after the point. -/
structure JNum where
  m : Int
  e : Nat
deriving DecidableEq, Repr


mutual

/-- JavaScript-style JSON value, including the undefined sentinel. -/
inductive Json where
  | null : Json
  | undef : Json
  | bool : Bool → Json
  | num : JNum → Json
  | str : String → Json
  | arr : JList → Json
  | obj : JFields → Json

/-- List of JSON values (array items). -/
inductive JList where
  | nil : JList
  | cons : Json → JList → JList

/-- Ordered key/value fields of a JSON object. -/
inductive JFields where
  | nil : JFields
  | cons : String → Json → JFields → JFields

end

mutual

def beqJ : Json → Json → Bool
  | Json.null, Json.null => true
  | Json.undef, Json.undef => true
  | Json.bool a, Json.bool b => a == b
  | Json.num a, Json.num b => a == b
  | Json.str a, Json.str b => a == b
  | Json.arr a, Json.arr b => beqL a b
  | Json.obj a, Json.obj b => beqF a b
  | _, _ => false

def beqL : JList → JList → Bool
  | JList.nil, JList.nil => true
  | JList.cons x xs, JList.cons y ys => beqJ x y && beqL xs ys
  | _, _ => false

def beqF : JFields → JFields → Bool
  | JFields.nil, JFields.nil => true
  | JFields.cons k v xs, JFields.cons k2 v2 ys => k == k2 && beqJ v v2 && beqF xs ys
  | _, _ => false

end

mutual

def beqJ_iff : ∀ a b : Json, beqJ a b = true ↔ a = b
  | Json.null, b => by cases b <;> simp [beqJ]
  | Json.undef, b => by cases b <;> simp [beqJ]
  | Json.bool a, b => by cases b <;> simp [beqJ]
  | Json.num a, b => by cases b <;> simp [beqJ]
  | Json.str a, b => by cases b <;> simp [beqJ]
  | Json.arr a, b => by
      cases b <;> simp [beqJ]
      exact beqL_iff a _
  | Json.obj a, b => by
      cases b <;> simp [beqJ]
      exact beqF_iff a _

def beqL_iff : ∀ a b : JList, beqL a b = true ↔ a = b
  | JList.nil, b => by cases b <;> simp [beqL]
  | JList.cons x xs, b => by
      cases b with
      | nil => simp [beqL]
      | cons y ys =>
        simp [beqL, Bool.and_eq_true, beqJ_iff x y, beqL_iff xs ys]

def beqF_iff : ∀ a b : JFields, beqF a b = true ↔ a = b
  | JFields.nil, b => by cases b <;> simp [beqF]
  | JFields.cons k v xs, b => by
      cases b with
      | nil => simp [beqF]
      | cons k2 v2 ys =>
        simp [beqF, Bool.and_eq_true, beqJ_iff v v2, beqF_iff xs ys, and_assoc]

end

instance : DecidableEq Json := fun a b => decidable_of_iff _ (beqJ_iff a b)


instance : DecidableEq JList := fun a b => decidable_of_iff _ (beqL_iff a b)


instance : DecidableEq JFields := fun a b => decidable_of_iff _ (beqF_iff a b)


def jlistOf (xs : List Json) : JList := xs.foldr JList.cons JList.nil


def jfieldsOf (fs : List (String × Json)) : JFields :=
  fs.foldr (fun p acc => JFields.cons p.1 p.2 acc) JFields.nil


/-- Build an array value from a plain Lean list. -/
def jarr (xs : List Json) : Json := Json.arr (jlistOf xs)


/-- Build an object value from a plain Lean association list (insertion order kept). -/
def jobj (fs : List (String × Json)) : Json := Json.obj (jfieldsOf fs)


def lbrace : Char := Char.ofNat 123

def rbrace : Char := Char.ofNat 125


def startsList : List Char → List Char → Bool
  | [], _ => true
  | _ :: _, [] => false
  | p :: ps, c :: cs => p == c && startsList ps cs


def normalizeBaseUrl (baseUrl : String) : String :=
  ⟨((baseUrl.data.reverse.dropWhile (· == '/')).reverse)⟩


def buildUrl (baseUrl endpoint : String) : String :=
  if startsList "http://".data endpoint.data || startsList "https://".data endpoint.data then
    endpoint
  else
    let clean : List Char :=
      if endpoint.data.headD 'x' = '/' then endpoint.data else '/' :: endpoint.data
    if startsList "/api/".data clean then ⟨baseUrl.data ++ clean⟩
    else ⟨baseUrl.data ++ "/api".data ++ clean⟩


def isDig (c : Char) : Bool := 48 ≤ c.toNat && c.toNat ≤ 57


def digVal (c : Char) : Nat := c.toNat - 48


def digChar (n : Nat) : Char := Char.ofNat (48 + n)


def hexChar (n : Nat) : Char :=
  if n < 10 then Char.ofNat (48 + n) else Char.ofNat (97 + (n - 10))


def isHex (c : Char) : Bool :=
  (48 ≤ c.toNat && c.toNat ≤ 57) || (97 ≤ c.toNat && c.toNat ≤ 102) || (65 ≤ c.toNat && c.toNat ≤ 70)


def hexVal (c : Char) : Nat :=
  if 48 ≤ c.toNat && c.toNat ≤ 57 then c.toNat - 48
  else if 97 ≤ c.toNat && c.toNat ≤ 102 then 10 + c.toNat - 97
  else 10 + c.toNat - 65


/-- JSON whitespace characters (also used to model the trim of ordinary input). -/
def isWs (c : Char) : Bool := c.toNat = 32 || c.toNat = 9 || c.toNat = 10 || c.toNat = 13


def skipWs (cs : List Char) : List Char := cs.dropWhile isWs


def trimList (cs : List Char) : List Char :=
  ((cs.dropWhile isWs).reverse.dropWhile isWs).reverse


def lowerList (cs : List Char) : List Char := cs.map Char.toLower


def natOfDigits (ds : List Char) : Nat := ds.foldl (fun a c => 10 * a + digVal c) 0


def natRenderAux : Nat → Nat → List Char
  | 0, _ => []
  | fuel + 1, n => if n < 10 then [digChar n] else natRenderAux fuel (n / 10) ++ [digChar (n % 10)]


/-- Decimal digit rendering of a natural number, most significant digit first. -/
def natRender (n : Nat) : List Char := natRenderAux (n + 1) n


/-- Digit block of a decimal value: the absolute mantissa, zero-padded on the left
so that there is at least one digit before the decimal point. -/
def padDigits (n : JNum) : List Char :=
  let ds : List Char := natRender n.m.natAbs
  if ds.length ≤ n.e then List.replicate (n.e + 1 - ds.length) '0' ++ ds else ds


/-- Rendering of a decimal JNum value, mirroring decimal display of numbers. -/
def renderJNum (n : JNum) : List Char :=
  let pad : List Char := padDigits n
  (if n.m < 0 then ['-'] else []) ++ pad.take (pad.length - n.e) ++
    (if n.e = 0 then [] else '.' :: pad.drop (pad.length - n.e))


/-- Escape of one character inside a JSON string literal, as the serializer emits it. -/
def escChar (c : Char) : List Char :=
  if c = '"' then ['\\', '"']
  else if c = '\\' then ['\\', '\\']
  else if c = '\n' then ['\\', 'n']
  else if c = '\r' then ['\\', 'r']
  else if c = '\t' then ['\\', 't']
  else if c = '\x08' then ['\\', 'b']
  else if c = '\x0c' then ['\\', 'f']
  else if c.toNat < 32 then ['\\', 'u', '0', '0', hexChar (c.toNat / 16), hexChar (c.toNat % 16)]
  else [c]


def escList : List Char → List Char
  | [] => []
  | c :: cs => escChar c ++ escList cs


mutual

/-- Model of JSON.stringify on the Json value space (compact output, no spaces);
undefined entries of an object are dropped and undefined array items serialize as null,
as the host serializer does. -/
def strV : Json → List Char
  | Json.null => ['n', 'u', 'l', 'l']
  | Json.undef => ['n', 'u', 'l', 'l']
  | Json.bool true => ['t', 'r', 'u', 'e']
  | Json.bool false => ['f', 'a', 'l', 's', 'e']
  | Json.num n => renderJNum n
  | Json.str s => '"' :: (escList s.data ++ ['"'])
  | Json.arr xs => '[' :: (strElems xs ++ [']'])
  | Json.obj fs => lbrace :: (strFields fs ++ [rbrace])

def strElems : JList → List Char
  | JList.nil => []
  | JList.cons x JList.nil => strV x
  | JList.cons x (JList.cons y rest) => strV x ++ ',' :: strElems (JList.cons y rest)

def strFields : JFields → List Char
  | JFields.nil => []
  | JFields.cons k v rest =>
    match v with
    | Json.undef => strFields rest
    | _ =>
      let f : List Char := '"' :: (escList k.data ++ ['"', ':']) ++ strV v
      let r : List Char := strFields rest
      f ++ (if r.isEmpty then [] else ',' :: r)

end

def stringifyJ (v : Json) : String := ⟨strV v⟩


def takeDigits : List Char → List Char × List Char
  | [] => ([], [])
  | c :: cs => if isDig c then let p := takeDigits cs; (c :: p.1, p.2) else ([], c :: cs)


def splitSign (cs : List Char) : Bool × List Char :=
  if cs.headD 'x' = '-' then (true, cs.tail) else (false, cs)


def splitFrac (cs : List Char) : Option (List Char) × List Char :=
  if cs.headD 'x' = '.' then (some (takeDigits cs.tail).1, (takeDigits cs.tail).2) else (none, cs)


def splitExp (cs : List Char) : Option (Bool × List Char) × List Char :=
  if cs.headD 'x' = 'e' ∨ cs.headD 'x' = 'E' then
    let r := cs.tail
    let es : Bool × List Char :=
      if r.headD 'x' = '+' then (false, r.tail)
      else if r.headD 'x' = '-' then (true, r.tail)
      else (false, r)
    (some (es.1, (takeDigits es.2).1), (takeDigits es.2).2)
  else (none, cs)


/-- Assemble the numeric token parts into a decimal value. -/
def mkJNum (neg : Bool) (ip fp : List Char) (ex : Option (Bool × List Char)) : JNum :=
  let m0 : Nat := natOfDigits (ip ++ fp)
  let e0 : Nat := fp.length
  let k : Int :=
    match ex with
    | some (en, ed) => if en then -(natOfDigits ed : Int) else (natOfDigits ed : Int)
    | none => 0
  let sgn : Int → Int := fun x => if neg then -x else x
  if 0 ≤ k ∧ e0 ≤ k.toNat then ⟨sgn (m0 * 10 ^ (k.toNat - e0)), 0⟩
  else if 0 ≤ k then ⟨sgn m0, e0 - k.toNat⟩
  else ⟨sgn m0, e0 + (-k).toNat⟩


/-- Number-token parsing after the sign has been split off. -/
def parseNumTail (neg : Bool) (cs2 : List Char) : Option (JNum × List Char) :=
  let ipp := takeDigits cs2
  if ipp.1.isEmpty then none
  else if 1 < ipp.1.length ∧ ipp.1.headD 'x' = '0' then none
  else
    let fr := splitFrac ipp.2
    match fr.1 with
    | some [] => none
    | fpOpt =>
      let ex := splitExp fr.2
      match ex.1 with
      | some (_, []) => none
      | exOpt => some (mkJNum neg ipp.1 (fpOpt.getD []) exOpt, ex.2)


/-- Parse one JSON number token (sign, integer part, optional fraction and exponent). -/
def parseNum (cs : List Char) : Option (JNum × List Char) :=
  parseNumTail (splitSign cs).1 (splitSign cs).2


/-- Parse the body of a JSON string literal, after the opening quote. -/
def parseStrBody : List Char → Option (List Char × List Char)
  | [] => none
  | c :: rest =>
    if c = '"' then some ([], rest)
    else if c = '\\' then
      match rest with
      | [] => none
      | e :: rest1 =>
        if e = '"' then (parseStrBody rest1).map (fun p => ('"' :: p.1, p.2))
        else if e = '\\' then (parseStrBody rest1).map (fun p => ('\\' :: p.1, p.2))
        else if e = '/' then (parseStrBody rest1).map (fun p => ('/' :: p.1, p.2))
        else if e = 'n' then (parseStrBody rest1).map (fun p => ('\n' :: p.1, p.2))
        else if e = 'r' then (parseStrBody rest1).map (fun p => ('\r' :: p.1, p.2))
        else if e = 't' then (parseStrBody rest1).map (fun p => ('\t' :: p.1, p.2))
        else if e = 'b' then (parseStrBody rest1).map (fun p => ('\x08' :: p.1, p.2))
        else if e = 'f' then (parseStrBody rest1).map (fun p => ('\x0c' :: p.1, p.2))
        else if e = 'u' then
          match rest1 with
          | h1 :: h2 :: h3 :: h4 :: rest2 =>
            if isHex h1 && isHex h2 && isHex h3 && isHex h4 then
              (parseStrBody rest2).map
                (fun p => (Char.ofNat (hexVal h1 * 4096 + hexVal h2 * 256 + hexVal h3 * 16 + hexVal h4) :: p.1, p.2))
            else none
          | _ => none
        else none
    else if c.toNat < 32 then none
    else (parseStrBody rest).map (fun p => (c :: p.1, p.2))


mutual

/-- Fuel-indexed model of JSON.parse: parse one value and return the unconsumed rest. -/
def parseV : Nat → List Char → Option (Json × List Char)
  | 0, _ => none
  | fuel + 1, cs =>
    match skipWs cs with
    | [] => none
    | c :: rest =>
      if c = 'n' then
        (match rest with
         | 'u' :: 'l' :: 'l' :: r => some (Json.null, r)
         | _ => none)
      else if c = 't' then
        (match rest with
         | 'r' :: 'u' :: 'e' :: r => some (Json.bool true, r)
         | _ => none)
      else if c = 'f' then
        (match rest with
         | 'a' :: 'l' :: 's' :: 'e' :: r => some (Json.bool false, r)
         | _ => none)
      else if c = '"' then (parseStrBody rest).map (fun p => (Json.str ⟨p.1⟩, p.2))
      else if c = '[' then
        (match skipWs rest with
         | [] => none
         | c2 :: r2 =>
           if c2 = ']' then some (Json.arr JList.nil, r2)
           else (parseElems fuel (c2 :: r2)).map (fun p => (Json.arr p.1, p.2)))
      else if c = lbrace then
        (match skipWs rest with
         | [] => none
         | c2 :: r2 =>
           if c2 = rbrace then some (Json.obj JFields.nil, r2)
           else (parseFields fuel (c2 :: r2)).map (fun p => (Json.obj p.1, p.2)))
      else if c = '-' ∨ isDig c then
        (parseNum (c :: rest)).map (fun p => (Json.num p.1, p.2))
      else none

def parseElems : Nat → List Char → Option (JList × List Char)
  | 0, _ => none
  | fuel + 1, cs =>
    (parseV fuel cs).bind (fun p =>
      match skipWs p.2 with
      | ',' :: r2 => (parseElems fuel r2).map (fun q => (JList.cons p.1 q.1, q.2))
      | ']' :: r2 => some (JList.cons p.1 JList.nil, r2)
      | _ => none)

def parseFields : Nat → List Char → Option (JFields × List Char)
  | 0, _ => none
  | fuel + 1, cs =>
    match skipWs cs with
    | '"' :: rest =>
      (parseStrBody rest).bind (fun kp =>
        match skipWs kp.2 with
        | ':' :: r2 =>
          (parseV fuel r2).bind (fun vp =>
            match skipWs vp.2 with
            | ',' :: r4 => (parseFields fuel r4).map (fun q => (JFields.cons ⟨kp.1⟩ vp.1 q.1, q.2))
            | c :: r4 =>
              if c = rbrace then some (JFields.cons ⟨kp.1⟩ vp.1 JFields.nil, r4) else none
            | [] => none)
        | _ => none)
    | _ => none

end

/-- Model of JSON.parse on a whole string: failure (an exception in the source) is none. -/
def jsonParse (s : String) : Option Json :=
  match parseV (s.length + 1) s.data with
  | some (v, rest) => if (skipWs rest).isEmpty then some v else none
  | none => none


/-- The sensitive-key set of the source, verbatim (note the mixed-case entries). -/
def SENSITIVE_KEYS : List String :=
  ["password", "adminPassword", "apiToken", "token", "authorization", "auth"]


def toLowerStr (s : String) : String := ⟨lowerList s.data⟩


def isSensitiveKey (k : String) : Bool := SENSITIVE_KEYS.contains (toLowerStr k)


mutual

/-- Model of redactObject: deep copy masking sensitive keys, stopping past depth 6. -/
def redactJ : Json → Nat → Json
  | Json.null, _ => Json.null
  | Json.undef, _ => Json.undef
  | v, depth =>
    if depth > 6 then v
    else
      match v with
      | Json.arr xs => Json.arr (redactL xs (depth + 1))
      | Json.obj fs => Json.obj (redactF fs (depth + 1))
      | w => w

def redactL : JList → Nat → JList
  | JList.nil, _ => JList.nil
  | JList.cons x tl, depth => JList.cons (redactJ x depth) (redactL tl depth)

def redactF : JFields → Nat → JFields
  | JFields.nil, _ => JFields.nil
  | JFields.cons k v tl, depth =>
    if isSensitiveKey k then JFields.cons k (Json.str "[REDACTED]") (redactF tl depth)
    else JFields.cons k (redactJ v depth) (redactF tl depth)

end

def redactObject (v : Json) : Json := redactJ v 0


/-- The strict decimal pattern of the source: optional minus sign, an integer part with
no redundant leading zero, and an optional fractional part with at least one digit. -/
def numberPatternTest (cs : List Char) : Bool :=
  let sn := splitSign cs
  let ipSplit := takeDigits sn.2
  let ip := ipSplit.1
  let r := ipSplit.2
  if ip.isEmpty then false
  else if 1 < ip.length ∧ ip.headD 'x' = '0' then false
  else
    let fr := splitFrac r
    match fr.1 with
    | some fp => (!fp.isEmpty) && fr.2.isEmpty
    | none => r.isEmpty


/-- Numeric value of a string matching the decimal pattern, as an exact decimal. -/
def decOf (cs : List Char) : JNum :=
  let sn := splitSign cs
  let ipSplit := takeDigits sn.2
  let fp : List Char := ((splitFrac ipSplit.2).1).getD []
  let m0 : Nat := natOfDigits (ipSplit.1 ++ fp)
  ⟨if sn.1 then -(m0 : Int) else (m0 : Int), fp.length⟩


/-- Model of coerceStringValue: trim, keyword and number recognition, then a JSON
parse attempt for brace- or bracket-delimited strings; fallback keeps the string. -/
def coerceStringValue (s : String) : Json :=
  let t : List Char := trimList s.data
  if t.isEmpty then Json.str s
  else
    let lw : List Char := lowerList t
    if lw = "true".data then Json.bool true
    else if lw = "false".data then Json.bool false
    else if lw = "null".data then Json.null
    else if numberPatternTest t then Json.num (decOf t)
    else if (t.headD ' ' = lbrace ∧ t.getLastD ' ' = rbrace) ∨
            (t.headD ' ' = '[' ∧ t.getLastD ' ' = ']') then
      match jsonParse ⟨t⟩ with
      | some j => j
      | none => Json.str s
    else Json.str s


mutual

/-- Recursive part of coerceValue for the enabled case (dates are outside the model). -/
def coerceT : Json → Json
  | Json.null => Json.null
  | Json.undef => Json.undef
  | Json.bool b => Json.bool b
  | Json.num n => Json.num n
  | Json.str s => coerceStringValue s
  | Json.arr xs => Json.arr (coerceTL xs)
  | Json.obj fs => Json.obj (coerceTF fs)

def coerceTL : JList → JList
  | JList.nil => JList.nil
  | JList.cons x tl => JList.cons (coerceT x) (coerceTL tl)

def coerceTF : JFields → JFields
  | JFields.nil => JFields.nil
  | JFields.cons k v tl => JFields.cons k (coerceT v) (coerceTF tl)

end

def coerceValue (v : Json) (coerce : Bool) : Json := if coerce then coerceT v else v


def normalizeFields (fs : JFields) (coerce : Bool) : JFields :=
  match fs with
  | JFields.nil => JFields.nil
  | JFields.cons k v tl =>
    match v with
    | Json.undef => normalizeFields tl coerce
    | w => JFields.cons k (coerceValue w coerce) (normalizeFields tl coerce)


mutual

/-- Model of the host string conversion String(v) for the values of the model. -/
def jsToString : Json → String
  | Json.null => "null"
  | Json.undef => "undefined"
  | Json.bool true => "true"
  | Json.bool false => "false"
  | Json.num n => ⟨renderJNum n⟩
  | Json.str s => s
  | Json.arr xs => jsToStringElems xs
  | Json.obj _ => "[object Object]"

def jsToStringElems : JList → String
  | JList.nil => ""
  | JList.cons x JList.nil =>
    (match x with
     | Json.null => ""
     | Json.undef => ""
     | y => jsToString y)
  | JList.cons x (JList.cons y tl) =>
    (match x with
     | Json.null => ""
     | Json.undef => ""
     | z => jsToString z) ++ "," ++ jsToStringElems (JList.cons y tl)

end

/-- Model of buildFormData: undefined dropped, null to empty string, containers to
their JSON text, remaining scalars to their string conversion. -/
def buildFormData : JFields → List (String × String)
  | JFields.nil => []
  | JFields.cons k v tl =>
    match v with
    | Json.undef => buildFormData tl
    | Json.null => (k, "") :: buildFormData tl
    | Json.arr xs => (k, stringifyJ (Json.arr xs)) :: buildFormData tl
    | Json.obj fs => (k, stringifyJ (Json.obj fs)) :: buildFormData tl
    | w => (k, jsToString w) :: buildFormData tl


def findField : JFields → String → Option Json
  | JFields.nil, _ => none
  | JFields.cons k v tl, key => if k = key then some v else findField tl key


/-- Property read on a value: only objects expose fields, everything else yields
the undefined result, as host property access on primitives does. -/
def getField (j : Json) (k : String) : Option Json :=
  match j with
  | Json.obj fs => findField fs k
  | _ => none


/-- Model of the nullish-coalescing step: null and undefined fall through. -/
def orJS (a b : Option Json) : Option Json :=
  match a with
  | none => b
  | some Json.null => b
  | some Json.undef => b
  | some v => some v


/-- Host truthiness of a value. -/
def jsTruthy : Json → Bool
  | Json.null => false
  | Json.undef => false
  | Json.bool b => b
  | Json.num n => n.m ≠ 0
  | Json.str s => s ≠ ""
  | Json.arr _ => true
  | Json.obj _ => true


/-- Model of parseInt(s, 10): skip leading whitespace, optional sign, then the
longest leading digit run; no digits means the not-a-number result (none). -/
def parseIntJS (s : String) : Option Int :=
  let cs := skipWs s.data
  let signed : Bool × List Char :=
    if cs.headD 'x' = '+' then (false, cs.tail)
    else if cs.headD 'x' = '-' then (true, cs.tail)
    else (false, cs)
  let ds := (takeDigits signed.2).1
  if ds.isEmpty then none
  else some (if signed.1 then -(natOfDigits ds : Int) else (natOfDigits ds : Int))


/-- Model of getStatusCode: probe statusCode, httpCode and status on the error,
its response and its cause, then accept numbers directly and parse strings. -/
def getStatusCode (error : Json) : Option JNum :=
  match error with
  | Json.obj _ =>
    let resp := getField error "response"
    let cause := getField error "cause"
    let onOpt : Option Json → String → Option Json := fun o k =>
      match o with
      | some j => getField j k
      | none => none
    let raw :=
      orJS (getField error "statusCode")
        (orJS (getField error "httpCode")
          (orJS (getField error "status")
            (orJS (onOpt resp "statusCode")
              (orJS (onOpt resp "httpCode")
                (orJS (onOpt resp "status")
                  (orJS (onOpt cause "statusCode")
                    (orJS (onOpt cause "httpCode") (onOpt cause "status"))))))))
    match raw with
    | some (Json.num n) => some n
    | some (Json.str s) => (parseIntJS s).map (fun i => ⟨i, 0⟩)
    | _ => none
  | Json.arr _ =>
    -- arrays are objects to the host but carry none of the probed fields
    none
  | _ => none


/-- Numeric value comparison of a decimal against an integer. -/
def valEqInt (n : JNum) (k : Int) : Bool := n.m = k * (10 : Int) ^ n.e


/-- Model of isExpired: a missing or zero expiry never expires; otherwise expired
once the current time passes the expiry minus the 30 second safety margin. -/
def isExpired (now : Int) (expiresAt : Option Int) : Bool :=
  match expiresAt with
  | none => false
  | some e => if e = 0 then false else decide (now > e - 30000)


/-- Cached-token acceptance in getAuthToken: a truthy cached token that is not expired. -/
def usesCachedToken (cachedToken : Option String) (cachedExpiry : Option Int) (now : Int) : Bool :=
  match cachedToken with
  | none => false
  | some t => (t ≠ "" : Bool) && !isExpired now cachedExpiry


inductive HOutcome where
  | ok : Json → HOutcome
  | err : Json → HOutcome
deriving DecidableEq


structure Attempt where
  endpoint : String
  body : Json
deriving DecidableEq


inductive AuthOutcome where
  | success : Json → AuthOutcome
  | apiError : JNum → Json → AuthOutcome
  | failed : Json → AuthOutcome
deriving DecidableEq


/-- A first- or second-attempt error is fatal when it carries a truthy status code
outside the endpoint-not-present class 404/405/410. -/
def fatalStatus (e : Json) : Option JNum :=
  match getStatusCode e with
  | some s =>
    if (s.m ≠ 0 : Bool) && !(valEqInt s 404 || valEqInt s 405 || valEqInt s 410) then some s
    else none
  | none => none


def superuserEndpoint : String := "/api/collections/_superusers/auth-with-password"


def legacyAdminEndpoint : String := "/api/admins/auth-with-password"


/-- Model of the admin branch of getAuthToken: the ordered attempt loop, cut at the
point where a response is obtained or the resolution fails. The two oracle values
give the transport outcome of each endpoint when it is called. -/
def adminAuthAttempts (email pw : String) (o1 o2 : HOutcome) : List Attempt × AuthOutcome :=
  let a1 : Attempt := ⟨superuserEndpoint, jobj [("identity", Json.str email), ("password", Json.str pw)]⟩
  let a2 : Attempt := ⟨legacyAdminEndpoint, jobj [("email", Json.str email), ("password", Json.str pw)]⟩
  match o1 with
  | HOutcome.ok r => ([a1], AuthOutcome.success r)
  | HOutcome.err e1 =>
    match fatalStatus e1 with
    | some s => ([a1], AuthOutcome.apiError s e1)
    | none =>
      match o2 with
      | HOutcome.ok r => ([a1, a2], AuthOutcome.success r)
      | HOutcome.err e2 =>
        match fatalStatus e2 with
        | some s => ([a1, a2], AuthOutcome.apiError s e2)
        | none => ([a1, a2], AuthOutcome.failed e2)


structure PocketBaseErrorInfo where
  message : Json
  code : Option Json
  statusCode : Option Json
  fieldErrors : List String
  raw : Json
deriving DecidableEq


def arrEntriesFrom : JList → Nat → JFields
  | JList.nil, _ => JFields.nil
  | JList.cons x tl, i => JFields.cons ⟨natRender i⟩ x (arrEntriesFrom tl (i + 1))


/-- Object.entries view of a value: objects give their fields, arrays their
indexed items, anything else nothing. -/
def entriesOf (d : Json) : JFields :=
  match d with
  | Json.obj fs => fs
  | Json.arr xs => arrEntriesFrom xs 0
  | _ => JFields.nil


/-- JSON.stringify inside a template literal: the undefined result prints as the
text undefined. -/
def stringifyTemplate (v : Json) : String :=
  match v with
  | Json.undef => "undefined"
  | w => stringifyJ w


/-- One field-error line per entry of the validation map. -/
def fieldErrLines : JFields → List String
  | JFields.nil => []
  | JFields.cons k v tl =>
    let detail : String :=
      match v with
      | Json.str sv => sv
      | w =>
        let msg := (getField w "message").getD Json.undef
        if jsTruthy msg then jsToString msg else stringifyTemplate w
    (k ++ ": " ++ detail) :: fieldErrLines tl


/-- The response object probed by extractPocketBaseError: error.response, or the
error itself when absent or nullish. -/
def respOf (error : Json) : Json :=
  (orJS (getField error "response") (some error)).getD error


/-- The resolved error body: response.body, then response.data, then error.body,
then the error object itself. -/
def bodyOf (error : Json) : Json :=
  (orJS (getField (respOf error) "body")
    (orJS (getField (respOf error) "data")
      (orJS (getField error "body") (some error)))).getD error


/-- The status code value of the normalized error: response.statusCode, then
response.status, then the top-level statusCode, passed through verbatim. -/
def statusOf (error : Json) : Option Json :=
  orJS (getField (respOf error) "statusCode")
    (orJS (getField (respOf error) "status") (getField error "statusCode"))


/-- The message of the normalized error: body.message, then error.message, then
a fixed generic string. -/
def msgOf (error : Json) : Json :=
  (orJS (getField (bodyOf error) "message")
    (orJS (getField error "message") (some (Json.str "PocketBase request failed")))).getD
    (Json.str "PocketBase request failed")


def codeOf (error : Json) : Option Json :=
  orJS (getField (bodyOf error) "code") (getField error "code")


/-- Per-field validation lines of the normalized error. -/
def fieldErrorsOf (error : Json) : List String :=
  match orJS (getField (bodyOf error) "data") none with
  | some d => if jsTruthy d then fieldErrLines (entriesOf d) else []
  | none => []


/-- Model of extractPocketBaseError. -/
def extractPocketBaseError (error : Json) : PocketBaseErrorInfo :=
  ⟨msgOf error, codeOf error, statusOf error, fieldErrorsOf error, bodyOf error⟩


/-- Body resolution exactly as the specification words it: error.response.body,
then error.response.data, then error.body, then the error object itself. -/
def specBodyOf (error : Json) : Json :=
  let respBody : Option Json :=
    match getField error "response" with
    | some r => getField r "body"
    | none => none
  let respData : Option Json :=
    match getField error "response" with
    | some r => getField r "data"
    | none => none
  (orJS respBody (orJS respData (orJS (getField error "body") (some error)))).getD error


/-- The normalization result as the specification words it, differing from the code
only in which body it resolves. -/
def specExtract (error : Json) : PocketBaseErrorInfo :=
  let body : Json := specBodyOf error
  let message : Json :=
    (orJS (getField body "message")
      (orJS (getField error "message") (some (Json.str "PocketBase request failed")))).getD
      (Json.str "PocketBase request failed")
  let code : Option Json := orJS (getField body "code") (getField error "code")
  let fieldErrors : List String :=
    match orJS (getField body "data") none with
    | some d => if jsTruthy d then fieldErrLines (entriesOf d) else []
    | none => []
  ⟨message, code, statusOf error, fieldErrors, body⟩


/-- A status slot holding either a number or nothing, as the claim words it. -/
def isNumOrNone : Option Json → Bool
  | none => true
  | some (Json.num _) => true
  | _ => false


structure ExtraOptions where
  skipAuth : Option Bool := none
  headers : Option (List (String × String)) := none
  formData : Option (List (String × String)) := none
deriving DecidableEq


structure RequestOptions where
  method : String
  url : String
  jsonFlag : Bool
  headers : List (String × String)
  qs : Option JFields := none
  body : Option JFields := none
  formData : Option (List (String × String)) := none
deriving DecidableEq


/-- Host object property assignment on a string map: replace in place, else append. -/
def setHeader : List (String × String) → String → String → List (String × String)
  | [], k, v => [(k, v)]
  | (k2, v2) :: tl, k, v => if k2 = k then (k, v) :: tl else (k2, v2) :: setHeader tl k v


def headerValue (hs : List (String × String)) (k : String) : Option String :=
  match hs with
  | [] => none
  | (k2, v) :: tl => if k2 = k then some v else headerValue tl k


/-- Model of pocketBaseRequest: the request options handed to the transport.
resolvedToken stands for the value getAuthToken would produce when called. -/
def pocketBaseRequest (baseUrl method endpoint : String) (body qs : Option JFields)
    (extra : ExtraOptions) (resolvedToken : Option String) : RequestOptions :=
  let nb := normalizeBaseUrl baseUrl
  let skipAuthValue : Bool := extra.skipAuth = some true
  let token : Option String := if skipAuthValue then none else resolvedToken
  let merged : List (String × String) :=
    match token with
    | some t => if t ≠ "" then setHeader (extra.headers.getD []) "Authorization" ("Bearer " ++ t) else extra.headers.getD []
    | none => extra.headers.getD []
  let finalHeaders : List (String × String) :=
    match extra.headers with
    | some hs => hs
    | none => merged
  let ro : RequestOptions :=
    { method := method, url := buildUrl nb endpoint, jsonFlag := true,
      headers := finalHeaders, qs := none, body := none, formData := extra.formData }
  let ro2 : RequestOptions :=
    match qs with
    | some fs => if fs = JFields.nil then ro else { ro with qs := some fs }
    | none => ro
  match body with
  | some bs => if ro2.formData = none then { ro2 with body := some bs } else ro2
  | none => ro2


def nonDigStart : List Char → Bool
  | [] => true
  | c :: _ => !isDig c


def numStop : List Char → Bool
  | [] => true
  | c :: _ => !isDig c && !(c = '.') && !(c = 'e') && !(c = 'E')


mutual

/-- A value free of the undefined sentinel (serializable and parseable back). -/
def noUndefJ : Json → Bool
  | Json.undef => false
  | Json.arr xs => noUndefL xs
  | Json.obj fs => noUndefF fs
  | _ => true

def noUndefL : JList → Bool
  | JList.nil => true
  | JList.cons x tl => noUndefJ x && noUndefL tl

def noUndefF : JFields → Bool
  | JFields.nil => true
  | JFields.cons _ v tl => noUndefJ v && noUndefF tl

end

def headOkV (c : Char) : Bool :=
  !isWs c && !(c = ']') && !(c = ',') && !(c = rbrace)


def nonWsStart : List Char → Bool
  | [] => true
  | c :: _ => !isWs c


def isContainerJ : Json → Bool
  | Json.arr _ => true
  | Json.obj _ => true
  | _ => false


def hasDoubleSlash : List Char → Bool
  | [] => false
  | [_] => false
  | c :: d :: rest => (c = '/' && d = '/') || hasDoubleSlash (d :: rest)


/-- The URL seen past its scheme, when one of the two known schemes leads. -/
def afterScheme (s : List Char) : List Char :=
  if startsList "http://".data s then s.drop 7
  else if startsList "https://".data s then s.drop 8
  else s


def startsWithScheme (s : List Char) : Bool :=
  startsList "http://".data s || startsList "https://".data s


/-- The error object of the C4 divergence: a data map and a message at top level,
with no response and no body. -/
def errDataTop : Json := jobj [("data", jobj [("a", Json.str "x")]), ("message", Json.str "m")]


/-- The error object of the C5 divergence: a numeric-string status at top level. -/
def errStrStatus : Json := jobj [("statusCode", Json.str "400")]


/-- The validation-error object of the repository test-suite for error normalization. -/
def testError400 : Json :=
  jobj [("response", jobj [("statusCode", Json.num ⟨400, 0⟩),
    ("body", jobj [("message", Json.str "Validation failed"),
      ("data", jobj [("title", jobj [("message", Json.str "Required")]),
        ("count", jobj [("message", Json.str "Must be a number")])])])])]


theorem digVal_digChar : ∀ n, n < 10 → digVal (digChar n) = n := by decide


theorem isDig_digChar : ∀ n, n < 10 → isDig (digChar n) = true := by decide


theorem natRenderAux_mono : ∀ f1 : Nat, ∀ f2 n : Nat, n < f1 → n < f2 →
    natRenderAux f1 n = natRenderAux f2 n := by
  intro f1
  induction f1 with
  | zero => intro f2 n h1 _; omega
  | succ g1 ih =>
    intro f2 n h1 h2
    cases f2 with
    | zero => omega
    | succ g2 =>
      simp only [natRenderAux]
      by_cases hn : n < 10
      · simp [hn]
      · simp only [hn, if_false]
        rw [ih g2 (n / 10) (by omega) (by omega)]


theorem natRender_eq (n : Nat) :
    natRender n = if n < 10 then [digChar n] else natRender (n / 10) ++ [digChar (n % 10)] := by
  by_cases hn : n < 10
  · simp [natRender, natRenderAux, hn]
  · simp only [hn, if_false]
    show natRenderAux (n + 1) n = natRender (n / 10) ++ [digChar (n % 10)]
    conv_lhs => rw [natRenderAux]
    simp only [hn, if_false]
    unfold natRender
    rw [natRenderAux_mono n (n / 10 + 1) (n / 10) (by omega) (by omega)]


theorem natRender_ne_nil (n : Nat) : natRender n ≠ [] := by
  rw [natRender_eq]
  by_cases hn : n < 10 <;> simp [hn]


theorem natRender_digits : ∀ n : Nat, ∀ c ∈ natRender n, isDig c = true := by
  intro n
  induction n using Nat.strong_induction_on with
  | _ n ih =>
    rw [natRender_eq]
    by_cases hn : n < 10
    · simp only [hn, if_true, List.mem_singleton]
      rintro c rfl
      exact isDig_digChar n hn
    · simp only [hn, if_false, List.mem_append, List.mem_singleton]
      rintro c (hc | rfl)
      · exact ih (n / 10) (by omega) c hc
      · exact isDig_digChar (n % 10) (by omega)


theorem foldl_digits_init (b : List Char) : ∀ init : Nat,
    b.foldl (fun a c => 10 * a + digVal c) init = init * 10 ^ b.length + natOfDigits b := by
  induction b with
  | nil => intro init; simp [natOfDigits]
  | cons c b ih =>
    intro init
    simp only [natOfDigits] at ih ⊢
    simp only [List.foldl_cons, List.length_cons]
    rw [ih (10 * init + digVal c), ih (10 * 0 + digVal c)]
    ring


theorem natOfDigits_append (a b : List Char) :
    natOfDigits (a ++ b) = natOfDigits a * 10 ^ b.length + natOfDigits b := by
  unfold natOfDigits
  rw [List.foldl_append]
  exact foldl_digits_init b _


theorem natOfDigits_replicate_zero (k : Nat) : natOfDigits (List.replicate k '0') = 0 := by
  induction k with
  | zero => rfl
  | succ k ih =>
    have : natOfDigits (List.replicate (k + 1) '0') = natOfDigits (List.replicate k '0' ++ ['0']) := by
      rw [← List.replicate_succ' k '0']
    rw [this, natOfDigits_append, ih]
    decide


theorem natOfDigits_natRender : ∀ n : Nat, natOfDigits (natRender n) = n := by
  intro n
  induction n using Nat.strong_induction_on with
  | _ n ih =>
    rw [natRender_eq]
    by_cases hn : n < 10
    · simp only [hn, if_true]
      show natOfDigits [digChar n] = n
      simp [natOfDigits, digVal_digChar n hn]
    · simp only [hn, if_false, natOfDigits_append, ih (n / 10) (by omega)]
      show n / 10 * 10 ^ ([digChar (n % 10)].length) + natOfDigits [digChar (n % 10)] = n
      simp [natOfDigits, digVal_digChar (n % 10) (by omega)]
      omega


theorem digChar_ne_zero : ∀ n, n < 10 → n ≠ 0 → digChar n ≠ '0' := by decide


theorem natRender_head_ne_zero : ∀ n : Nat, n ≠ 0 → (natRender n).headD 'x' ≠ '0' := by
  intro n
  induction n using Nat.strong_induction_on with
  | _ n ih =>
    intro hn0
    rw [natRender_eq]
    by_cases hn : n < 10
    · simp only [hn, if_true, List.headD_cons]
      exact digChar_ne_zero n hn hn0
    · simp only [hn, if_false]
      have hne := natRender_ne_nil (n / 10)
      cases hd : natRender (n / 10) with
      | nil => exact absurd hd hne
      | cons c cs =>
        have := ih (n / 10) (by omega) (by omega)
        rw [hd] at this
        simpa using this


theorem natRender_length_one_lt (n : Nat) (h : 1 < (natRender n).length) : ¬ n < 10 := by
  intro hn
  rw [natRender_eq] at h
  simp [hn] at h


theorem takeDigits_append (ds : List Char) (rest : List Char)
    (h : ∀ c ∈ ds, isDig c = true) (h2 : nonDigStart rest = true) :
    takeDigits (ds ++ rest) = (ds, rest) := by
  induction ds with
  | nil =>
    simp only [List.nil_append]
    cases rest with
    | nil => rfl
    | cons c tl =>
      simp only [nonDigStart, Bool.not_eq_true'] at h2
      simp [takeDigits, h2]
  | cons c ds ih =>
    have hc : isDig c = true := h c (by simp)
    have ihe := ih (fun d hd => h d (by simp [hd]))
    simp only [List.cons_append, takeDigits, hc, if_true, List.append_eq, ihe]


theorem isDig_not_special : ∀ c : Char, isDig c = true →
    c ≠ '-' ∧ c ≠ '.' ∧ c ≠ 'e' ∧ c ≠ 'E' := by
  intro c h
  refine ⟨?_, ?_, ?_, ?_⟩ <;> rintro rfl <;> revert h <;> decide


theorem headD_take (l : List Char) (k : Nat) (d : Char) (hk : 1 ≤ k) :
    (l.take k).headD d = l.headD d := by
  cases l with
  | nil => simp
  | cons c tl =>
    cases k with
    | zero => omega
    | succ k => simp


theorem headD_append_left (a b : List Char) (d : Char) (ha : a ≠ []) :
    (a ++ b).headD d = a.headD d := by
  cases a with
  | nil => exact absurd rfl ha
  | cons c tl => simp


theorem numStop_facts (rest : List Char) (h : numStop rest = true) :
    nonDigStart rest = true ∧ rest.headD 'x' ≠ '.' ∧ rest.headD 'x' ≠ 'e' ∧
      rest.headD 'x' ≠ 'E' := by
  cases rest with
  | nil => refine ⟨rfl, ?_, ?_, ?_⟩ <;> decide
  | cons c tl =>
    simp only [numStop, Bool.and_eq_true, Bool.not_eq_true', decide_eq_true_eq] at h
    obtain ⟨⟨⟨h1, h2⟩, h3⟩, h4⟩ := h
    refine ⟨?_, ?_, ?_, ?_⟩ <;> simp_all [nonDigStart]


theorem padDigits_digits (n : JNum) : ∀ c ∈ padDigits n, isDig c = true := by
  intro c hc
  unfold padDigits at hc
  by_cases hl : (natRender n.m.natAbs).length ≤ n.e
  · simp only [hl, if_true, List.mem_append] at hc
    rcases hc with hc | hc
    · rw [List.eq_of_mem_replicate hc]; decide
    · exact natRender_digits _ c hc
  · simp only [hl, if_false] at hc
    exact natRender_digits _ c hc


theorem padDigits_len (n : JNum) : n.e < (padDigits n).length := by
  unfold padDigits
  have h1 := natRender_ne_nil n.m.natAbs
  have h2 : 1 ≤ (natRender n.m.natAbs).length := by
    cases hh : natRender n.m.natAbs with
    | nil => exact absurd hh h1
    | cons c tl => simp
  by_cases hl : (natRender n.m.natAbs).length ≤ n.e
  · simp only [hl, if_true, List.length_append, List.length_replicate]
    omega
  · simp only [hl, if_false]
    omega


theorem natOfDigits_padDigits (n : JNum) : natOfDigits (padDigits n) = n.m.natAbs := by
  unfold padDigits
  by_cases hl : (natRender n.m.natAbs).length ≤ n.e
  · simp only [hl, if_true]
    rw [natOfDigits_append, natOfDigits_replicate_zero, natOfDigits_natRender]
    ring
  · simp only [hl, if_false]
    exact natOfDigits_natRender _


theorem padDigits_head_ne_zero (n : JNum) (h : 1 < (padDigits n).length - n.e) :
    (padDigits n).headD 'x' ≠ '0' := by
  unfold padDigits at h ⊢
  by_cases hl : (natRender n.m.natAbs).length ≤ n.e
  · simp only [hl, if_true, List.length_append, List.length_replicate] at h
    omega
  · simp only [hl, if_false] at h ⊢
    have hgt : 1 < (natRender n.m.natAbs).length := by omega
    have h10 : ¬ n.m.natAbs < 10 := natRender_length_one_lt _ hgt
    exact natRender_head_ne_zero _ (by omega)


theorem mkJNum_none (neg : Bool) (ip fp : List Char) :
    mkJNum neg ip fp none =
      ⟨if neg then -(natOfDigits (ip ++ fp) : Int) else (natOfDigits (ip ++ fp) : Int), fp.length⟩ := by
  unfold mkJNum
  cases hfp : fp with
  | nil =>
    simp
  | cons c tl =>
    rw [if_neg (by simp)]
    rw [if_pos (le_refl (0 : Int))]
    simp


theorem splitFrac_notdot (cs : List Char) (h : cs.headD 'x' ≠ '.') :
    splitFrac cs = (none, cs) := by
  unfold splitFrac
  rw [if_neg h]


theorem splitExp_notexp (cs : List Char) (h1 : cs.headD 'x' ≠ 'e') (h2 : cs.headD 'x' ≠ 'E') :
    splitExp cs = (none, cs) := by
  unfold splitExp
  rw [if_neg (not_or.mpr ⟨h1, h2⟩)]


theorem splitSign_dash (l : List Char) : splitSign ('-' :: l) = (true, l) := by
  unfold splitSign
  simp


theorem splitSign_other (l : List Char) (h : l.headD 'x' ≠ '-') : splitSign l = (false, l) := by
  unfold splitSign
  rw [if_neg h]


theorem parseNumTail_digits (neg : Bool) (ip fp rest : List Char)
    (hipd : ∀ c ∈ ip, isDig c = true) (hipne : ip ≠ [])
    (hiphead : ¬ (1 < ip.length ∧ ip.headD 'x' = '0'))
    (hfpd : ∀ c ∈ fp, isDig c = true)
    (h : numStop rest = true) :
    parseNumTail neg (ip ++ ((if fp.isEmpty then [] else '.' :: fp) ++ rest)) =
      some (mkJNum neg ip fp none, rest) := by
  obtain ⟨hnd, hdot, hel, hEl⟩ := numStop_facts rest h
  have hmid : nonDigStart ((if fp.isEmpty then [] else '.' :: fp) ++ rest) = true := by
    cases fp with
    | nil => simpa using hnd
    | cons c tl =>
      simp only [List.isEmpty_cons, Bool.false_eq_true, if_false, List.cons_append, nonDigStart]
      decide
  have htd : takeDigits (ip ++ ((if fp.isEmpty then [] else '.' :: fp) ++ rest)) =
      (ip, (if fp.isEmpty then [] else '.' :: fp) ++ rest) :=
    takeDigits_append _ _ hipd hmid
  unfold parseNumTail
  simp only [htd]
  rw [if_neg (by simp [hipne]), if_neg hiphead]
  cases fp with
  | nil =>
    simp only [List.isEmpty_nil, if_true, List.nil_append]
    rw [splitFrac_notdot rest hdot]
    simp only [splitExp_notexp rest hel hEl]
    rfl
  | cons c tl =>
    simp only [List.isEmpty_cons, Bool.false_eq_true, if_false, List.cons_append]
    have htd2 : takeDigits ((c :: tl) ++ rest) = (c :: tl, rest) :=
      takeDigits_append _ _ hfpd hnd
    have hfr : splitFrac ('.' :: (c :: (tl ++ rest))) = (some (c :: tl), rest) := by
      unfold splitFrac
      simp only [List.headD_cons, List.tail_cons]
      simp only [List.cons_append] at htd2
      simp [htd2]
    simp only [List.cons_append] at hfr ⊢
    rw [hfr]
    simp only [splitExp_notexp rest hel hEl]
    rfl


theorem parseNum_renderJNum (n : JNum) (rest : List Char) (h : numStop rest = true) :
    parseNum (renderJNum n ++ rest) = some (n, rest) := by
  have hlen := padDigits_len n
  have hdigs := padDigits_digits n
  have hhz := padDigits_head_ne_zero n
  have hm0 := natOfDigits_padDigits n
  obtain ⟨pad, hpad⟩ : ∃ pad, padDigits n = pad := ⟨_, rfl⟩
  rw [hpad] at hlen hdigs hhz hm0
  have hq1 : 1 ≤ pad.length - n.e := by omega
  have hiplen : (pad.take (pad.length - n.e)).length = pad.length - n.e := by
    rw [List.length_take]; omega
  have hipne : pad.take (pad.length - n.e) ≠ [] := by
    intro hcon
    have := congrArg List.length hcon
    rw [hiplen] at this
    simp at this
    omega
  have hipdigs : ∀ c ∈ pad.take (pad.length - n.e), isDig c = true := fun c hc =>
    hdigs c (List.take_subset _ _ hc)
  have hfpdigs : ∀ c ∈ pad.drop (pad.length - n.e), isDig c = true := fun c hc =>
    hdigs c (List.drop_subset _ _ hc)
  have hfplen : (pad.drop (pad.length - n.e)).length = n.e := by
    rw [List.length_drop]; omega
  have hiphead : ¬ (1 < (pad.take (pad.length - n.e)).length ∧
      (pad.take (pad.length - n.e)).headD 'x' = '0') := by
    rintro ⟨hgt, hhead⟩
    rw [hiplen] at hgt
    rw [headD_take _ _ _ hq1] at hhead
    exact hhz (by omega) hhead
  have hipfp : pad.take (pad.length - n.e) ++ pad.drop (pad.length - n.e) = pad :=
    List.take_append_drop _ pad
  have hrender : renderJNum n ++ rest =
      (if n.m < 0 then ['-'] else []) ++ pad.take (pad.length - n.e) ++
        ((if (pad.drop (pad.length - n.e)).isEmpty then []
          else '.' :: pad.drop (pad.length - n.e)) ++ rest) := by
    unfold renderJNum
    rw [hpad]
    rcases Nat.eq_zero_or_pos n.e with he | he
    · have hdropnil : pad.drop (pad.length - n.e) = [] := by
        apply List.eq_nil_of_length_eq_zero
        rw [hfplen, he]
      simp [he, hdropnil, List.append_assoc]
    · have hdropne : (pad.drop (pad.length - n.e)).isEmpty = false := by
        cases hc : pad.drop (pad.length - n.e) with
        | nil =>
          have := congrArg List.length hc
          rw [hfplen] at this
          simp at this
          omega
        | cons c tl => rfl
      have hne : n.e ≠ 0 := by omega
      simp [hne, hdropne, List.append_assoc]
  rw [hrender]
  by_cases hm0b : n.m < 0
  · rw [if_pos hm0b, List.append_assoc, List.singleton_append]
    unfold parseNum
    rw [splitSign_dash]
    rw [parseNumTail_digits true _ _ rest hipdigs hipne hiphead hfpdigs h]
    rw [mkJNum_none, hipfp, hm0, hfplen]
    rw [if_pos rfl]
    have hv : -(n.m.natAbs : Int) = n.m := by omega
    rw [hv]
  · rw [if_neg hm0b, List.nil_append]
    unfold parseNum
    have hheadd : (pad.take (pad.length - n.e) ++
        ((if (pad.drop (pad.length - n.e)).isEmpty then []
          else '.' :: pad.drop (pad.length - n.e)) ++ rest)).headD 'x' ≠ '-' := by
      rw [headD_append_left _ _ _ hipne]
      have hipdig : isDig ((pad.take (pad.length - n.e)).headD 'x') = true := by
        cases hc : pad.take (pad.length - n.e) with
        | nil => exact absurd hc hipne
        | cons c tl =>
          simpa using hipdigs c (by rw [hc]; simp)
      exact (isDig_not_special _ hipdig).1
    rw [splitSign_other _ hheadd]
    rw [parseNumTail_digits false _ _ rest hipdigs hipne hiphead hfpdigs h]
    rw [mkJNum_none, hipfp, hm0, hfplen]
    rw [if_neg (by simp)]
    have hv : (n.m.natAbs : Int) = n.m := by omega
    rw [hv]


theorem hexChar_facts : ∀ d, d < 16 → isHex (hexChar d) = true ∧ hexVal (hexChar d) = d := by
  decide


theorem parseStrBody_round : ∀ (s rest : List Char),
    parseStrBody (escList s ++ ('"' :: rest)) = some (s, rest) := by
  intro s
  induction s with
  | nil =>
    intro rest
    simp only [escList, List.nil_append]
    unfold parseStrBody
    rw [if_pos rfl]
  | cons c s ih =>
    intro rest
    show parseStrBody (escChar c ++ escList s ++ ('"' :: rest)) = some (c :: s, rest)
    unfold escChar
    by_cases h1 : c = '"'
    · subst h1
      rw [if_pos rfl]
      simp only [List.append_assoc, List.cons_append, List.nil_append]
      unfold parseStrBody
      simp +decide [ih]
    · rw [if_neg h1]
      by_cases h2 : c = '\\'
      · subst h2
        rw [if_pos rfl]
        simp only [List.append_assoc, List.cons_append, List.nil_append]
        unfold parseStrBody
        simp +decide [ih]
      · rw [if_neg h2]
        by_cases h3 : c = '\n'
        · subst h3
          rw [if_pos rfl]
          simp only [List.append_assoc, List.cons_append, List.nil_append]
          unfold parseStrBody
          simp +decide [ih]
        · rw [if_neg h3]
          by_cases h4 : c = '\r'
          · subst h4
            rw [if_pos rfl]
            simp only [List.append_assoc, List.cons_append, List.nil_append]
            unfold parseStrBody
            simp +decide [ih]
          · rw [if_neg h4]
            by_cases h5 : c = '\t'
            · subst h5
              rw [if_pos rfl]
              simp only [List.append_assoc, List.cons_append, List.nil_append]
              unfold parseStrBody
              simp +decide [ih]
            · rw [if_neg h5]
              by_cases h6 : c = '\x08'
              · subst h6
                rw [if_pos rfl]
                simp only [List.append_assoc, List.cons_append, List.nil_append]
                unfold parseStrBody
                simp +decide [ih]
              · rw [if_neg h6]
                by_cases h7 : c = '\x0c'
                · subst h7
                  rw [if_pos rfl]
                  simp only [List.append_assoc, List.cons_append, List.nil_append]
                  unfold parseStrBody
                  simp +decide [ih]
                · rw [if_neg h7]
                  by_cases h8 : c.toNat < 32
                  · rw [if_pos h8]
                    have hx1 := hexChar_facts (c.toNat / 16) (by omega)
                    have hx2 := hexChar_facts (c.toNat % 16) (by omega)
                    simp only [List.append_assoc, List.cons_append, List.nil_append]
                    unfold parseStrBody
                    simp +decide [ih, hx1.1, hx2.1]
                    rw [hx1.2, hx2.2]
                    rw [show hexVal '0' * 4096 + hexVal '0' * 256 + c.toNat / 16 * 16 +
                        c.toNat % 16 = c.toNat from by
                      rw [show hexVal '0' = 0 from by decide]
                      omega]
                    rw [Char.ofNat_toNat]
                  · rw [if_neg h8]
                    simp only [List.append_assoc, List.cons_append, List.nil_append]
                    unfold parseStrBody
                    rw [if_neg h1, if_neg h2, if_neg h8, ih]
                    rfl


theorem skipWs_cons (c : Char) (l : List Char) (h : isWs c = false) :
    skipWs (c :: l) = c :: l := by
  simp [skipWs, List.dropWhile_cons, h]


theorem char_eq_toNat {c d : Char} (h : c = d) : c.toNat = d.toNat := by rw [h]


theorem headOk_of_dash_or_dig (c : Char) (h : c = '-' ∨ isDig c = true) :
    headOkV c = true := by
  rcases h with rfl | hd
  · decide
  · have h48 : 48 ≤ c.toNat ∧ c.toNat ≤ 57 := by simpa [isDig] using hd
    have hws : isWs c = false := by
      simp only [isWs, Bool.or_eq_false_iff, decide_eq_false_iff_not]
      refine ⟨⟨⟨?_, ?_⟩, ?_⟩, ?_⟩ <;> omega
    simp only [headOkV, hws, Bool.not_false, Bool.true_and, Bool.and_eq_true,
      Bool.not_eq_true', decide_eq_false_iff_not]
    refine ⟨⟨?_, ?_⟩, ?_⟩ <;> rintro rfl <;> exact absurd h48 (by decide)


theorem numHead_ne (c : Char) (h : c = '-' ∨ isDig c = true) :
    c ≠ 'n' ∧ c ≠ 't' ∧ c ≠ 'f' ∧ c ≠ '"' ∧ c ≠ '[' ∧ c ≠ lbrace := by
  rcases h with rfl | hd
  · refine ⟨?_, ?_, ?_, ?_, ?_, ?_⟩ <;> decide
  · have h48 : 48 ≤ c.toNat ∧ c.toNat ≤ 57 := by simpa [isDig] using hd
    refine ⟨?_, ?_, ?_, ?_, ?_, ?_⟩ <;> rintro rfl <;> exact absurd h48 (by decide)


theorem renderJNum_head (n : JNum) :
    ∃ c t, renderJNum n = c :: t ∧ (c = '-' ∨ isDig c = true) := by
  have hlen := padDigits_len n
  have hdigs := padDigits_digits n
  obtain ⟨pad, hpad⟩ : ∃ pad, padDigits n = pad := ⟨_, rfl⟩
  rw [hpad] at hlen hdigs
  have hq1 : 1 ≤ pad.length - n.e := by omega
  have hipne : pad.take (pad.length - n.e) ≠ [] := by
    intro hcon
    have := congrArg List.length hcon
    rw [List.length_take] at this
    simp at this
    omega
  unfold renderJNum
  rw [hpad]
  by_cases hm : n.m < 0
  · refine ⟨'-', pad.take (pad.length - n.e) ++
      (if n.e = 0 then [] else '.' :: pad.drop (pad.length - n.e)), ?_, Or.inl rfl⟩
    rw [if_pos hm]
    simp
  · rw [if_neg hm]
    cases hc : pad.take (pad.length - n.e) with
    | nil => exact absurd hc hipne
    | cons c t =>
      refine ⟨c, t ++ (if n.e = 0 then [] else '.' :: pad.drop (pad.length - n.e)), ?_, Or.inr ?_⟩
      · simp only [List.nil_append]
        rw [hc]
        simp
      · have : c ∈ pad := List.take_subset _ _ (by rw [hc]; simp)
        exact hdigs c this


theorem strV_head : ∀ v : Json, ∃ c t, strV v = c :: t ∧ headOkV c = true := by
  intro v
  cases v with
  | null => exact ⟨'n', _, rfl, by decide⟩
  | undef => exact ⟨'n', _, rfl, by decide⟩
  | bool b => cases b with
    | true => exact ⟨'t', _, rfl, by decide⟩
    | false => exact ⟨'f', _, rfl, by decide⟩
  | num n =>
    obtain ⟨c, t, hct, hd⟩ := renderJNum_head n
    exact ⟨c, t, by simpa [strV] using hct, headOk_of_dash_or_dig c hd⟩
  | str s => exact ⟨'"', _, rfl, by decide⟩
  | arr xs => exact ⟨'[', _, rfl, by decide⟩
  | obj fs => exact ⟨lbrace, _, rfl, by decide⟩


theorem strV_ne_nil (v : Json) : strV v ≠ [] := by
  obtain ⟨c, t, hct, _⟩ := strV_head v
  rw [hct]
  simp


theorem strV_len_pos (v : Json) : 1 ≤ (strV v).length := by
  obtain ⟨c, t, hct, _⟩ := strV_head v
  rw [hct]
  simp


theorem numStop_comma (r : List Char) : numStop (',' :: r) = true := by
  show (!isDig ',' && !(',' = '.') && !(',' = 'e') && !(',' = 'E')) = true
  decide


theorem numStop_rbracket (r : List Char) : numStop (']' :: r) = true := by
  show (!isDig ']' && !(']' = '.') && !(']' = 'e') && !(']' = 'E')) = true
  decide


theorem numStop_rbrace (r : List Char) : numStop (rbrace :: r) = true := by
  show (!isDig rbrace && !(rbrace = '.') && !(rbrace = 'e') && !(rbrace = 'E')) = true
  decide


theorem strFields_isEmpty (tl : JFields) (h : noUndefF tl = true) :
    (strFields tl).isEmpty = true ↔ tl = JFields.nil := by
  cases tl with
  | nil => simp [strFields]
  | cons k v tl2 =>
    simp only [noUndefF, Bool.and_eq_true] at h
    constructor
    · intro hcon
      exfalso
      cases v with
      | undef => simp [noUndefJ] at h
      | null => simp [strFields] at hcon
      | bool b => simp [strFields] at hcon
      | num n => simp [strFields] at hcon
      | str s => simp [strFields] at hcon
      | arr xs => simp [strFields] at hcon
      | obj fs => simp [strFields] at hcon
    · intro hcon
      exact absurd hcon (by simp)


theorem headOk_parts (c : Char) (h : headOkV c = true) :
    isWs c = false ∧ c ≠ ']' ∧ c ≠ ',' ∧ c ≠ rbrace := by
  simp only [headOkV, Bool.and_eq_true, Bool.not_eq_true', decide_eq_false_iff_not] at h
  exact ⟨h.1.1.1, h.1.1.2, h.1.2, h.2⟩


theorem strElems_head (x : Json) (tl : JList) :
    ∃ c t, strElems (JList.cons x tl) = c :: t ∧ headOkV c = true := by
  obtain ⟨c, t, hct, hok⟩ := strV_head x
  cases tl with
  | nil => exact ⟨c, t, by simp [strElems, hct], hok⟩
  | cons y tl2 =>
    refine ⟨c, t ++ ',' :: strElems (JList.cons y tl2), ?_, hok⟩
    show strV x ++ ',' :: strElems (JList.cons y tl2) = c :: (t ++ ',' :: strElems (JList.cons y tl2))
    rw [hct]
    simp


theorem strFields_cons_eq (k : String) (v : Json) (tl : JFields) (hv : noUndefJ v = true) :
    strFields (JFields.cons k v tl) =
      ('"' :: (escList k.data ++ ['"', ':'])) ++ strV v ++
        (if (strFields tl).isEmpty then [] else ',' :: strFields tl) := by
  cases v with
  | undef => exact absurd hv (by decide)
  | null => simp [strFields]
  | bool b => cases b <;> simp [strFields]
  | num n => simp [strFields]
  | str s => simp [strFields]
  | arr xs => simp [strFields]
  | obj fs => simp [strFields]


theorem strV_arr_len (xs : JList) :
    (strV (Json.arr xs)).length = (strElems xs).length + 2 := by
  show ('[' :: (strElems xs ++ [']'])).length = (strElems xs).length + 2
  simp


theorem strV_obj_len (fs : JFields) :
    (strV (Json.obj fs)).length = (strFields fs).length + 2 := by
  show (lbrace :: (strFields fs ++ [rbrace])).length = (strFields fs).length + 2
  simp


theorem strElems_cons_cons_len (x y : Json) (tl2 : JList) :
    (strElems (JList.cons x (JList.cons y tl2))).length =
      (strV x).length + 1 + (strElems (JList.cons y tl2)).length := by
  show (strV x ++ ',' :: strElems (JList.cons y tl2)).length = _
  simp
  omega


mutual

theorem parseV_round : ∀ (v : Json) (f : Nat) (rest : List Char),
    noUndefJ v = true → (strV v).length ≤ f → numStop rest = true →
    parseV f (strV v ++ rest) = some (v, rest)
  | Json.null, f, rest => by
    intro _ hf hstop
    cases f with
    | zero => simp [strV] at hf
    | succ f2 =>
      unfold parseV
      show (match skipWs (strV Json.null ++ rest) with
        | [] => none
        | c :: rest2 => _) = some (Json.null, rest)
      simp only [strV, List.cons_append, List.nil_append]
      rw [skipWs_cons _ _ (by decide)]
      simp +decide
  | Json.undef, f, rest => by
    intro h _ _
    exact absurd h (by decide)
  | Json.bool true, f, rest => by
    intro _ hf hstop
    cases f with
    | zero => simp [strV] at hf
    | succ f2 =>
      unfold parseV
      simp only [strV, List.cons_append, List.nil_append]
      rw [skipWs_cons _ _ (by decide)]
      simp +decide
  | Json.bool false, f, rest => by
    intro _ hf hstop
    cases f with
    | zero => simp [strV] at hf
    | succ f2 =>
      unfold parseV
      simp only [strV, List.cons_append, List.nil_append]
      rw [skipWs_cons _ _ (by decide)]
      simp +decide
  | Json.num n, f, rest => by
    intro _ hf hstop
    obtain ⟨c, t, hct, hd⟩ := renderJNum_head n
    obtain ⟨hn, ht, hfc, hq, hlb, hbr⟩ := numHead_ne c hd
    have hok := headOk_of_dash_or_dig c hd
    have hnws : isWs c = false := (headOk_parts c hok).1
    have hsv : strV (Json.num n) = c :: t := by
      show renderJNum n = c :: t
      exact hct
    cases f with
    | zero =>
      have := strV_len_pos (Json.num n)
      omega
    | succ f2 =>
      unfold parseV
      rw [hsv, List.cons_append, skipWs_cons _ _ hnws]
      simp only []
      rw [if_neg hn, if_neg ht, if_neg hfc, if_neg hq, if_neg hlb, if_neg hbr,
        if_pos hd]
      have harg : c :: (t ++ rest) = renderJNum n ++ rest := by
        rw [← List.cons_append, ← hct]
      rw [harg, parseNum_renderJNum n rest hstop]
      rfl
  | Json.str s, f, rest => by
    intro _ hf hstop
    cases f with
    | zero => simp [strV] at hf
    | succ f2 =>
      unfold parseV
      simp only [strV, List.cons_append, List.append_assoc, List.nil_append]
      rw [skipWs_cons _ _ (by decide)]
      simp only []
      rw [if_neg (by decide), if_neg (by decide), if_neg (by decide), if_true]
      rw [parseStrBody_round s.data rest]
      rfl
  | Json.arr xs, f, rest => by
    intro hnu hf hstop
    cases f with
    | zero => simp [strV] at hf
    | succ f2 =>
      unfold parseV
      simp only [strV, List.cons_append, List.append_assoc, List.nil_append]
      rw [skipWs_cons _ _ (by decide)]
      simp only []
      rw [if_neg (by decide), if_neg (by decide), if_neg (by decide), if_neg (by decide),
        if_true]
      cases xs with
      | nil =>
        simp only [strElems, List.nil_append]
        rw [skipWs_cons _ _ (by decide)]
        simp +decide
      | cons x tl =>
        obtain ⟨c2, t2, hct2, hok2⟩ := strElems_head x tl
        obtain ⟨hws2, hrb2, _, _⟩ := headOk_parts c2 hok2
        rw [hct2, List.cons_append, skipWs_cons _ _ hws2]
        simp only []
        rw [if_neg hrb2]
        have harg : c2 :: (t2 ++ (']' :: rest)) = strElems (JList.cons x tl) ++ (']' :: rest) := by
          rw [← List.cons_append, ← hct2]
        rw [harg]
        rw [parseElems_round (JList.cons x tl) f2 rest (by simpa [noUndefJ] using hnu)
          (by simp) (by
            have := strV_arr_len (JList.cons x tl)
            omega)]
        rfl
  | Json.obj fs, f, rest => by
    intro hnu hf hstop
    cases f with
    | zero => simp [strV] at hf
    | succ f2 =>
      unfold parseV
      simp only [strV, List.cons_append, List.append_assoc, List.nil_append]
      rw [skipWs_cons _ _ (by decide)]
      simp only []
      rw [if_neg (by decide), if_neg (by decide), if_neg (by decide), if_neg (by decide),
        if_neg (by decide), if_true]
      cases fs with
      | nil =>
        simp only [strFields, List.nil_append]
        rw [skipWs_cons _ _ (by decide)]
        simp +decide
      | cons k v tl =>
        have hnuv : noUndefJ v = true := by
          have h2 : noUndefJ v && noUndefF tl = true := by simpa [noUndefJ, noUndefF] using hnu
          simp only [Bool.and_eq_true] at h2
          exact h2.1
        rw [strFields_cons_eq k v tl hnuv]
        simp only [List.cons_append, List.append_assoc]
        rw [skipWs_cons _ _ (by decide)]
        simp only []
        rw [if_neg (by decide)]
        have harg : ('"' : Char) :: (escList k.data ++ '"' :: ':' :: (strV v ++
            ((if (strFields tl).isEmpty then [] else ',' :: strFields tl) ++
              (rbrace :: rest)))) =
            strFields (JFields.cons k v tl) ++ (rbrace :: rest) := by
          rw [strFields_cons_eq k v tl hnuv]
          simp
        simp only [List.nil_append]
        rw [harg]
        rw [parseFields_round (JFields.cons k v tl) f2 rest
          (by simpa [noUndefJ] using hnu) (by simp) (by
            have := strV_obj_len (JFields.cons k v tl)
            omega)]
        rfl

theorem parseElems_round : ∀ (xs : JList) (f : Nat) (rest : List Char),
    noUndefL xs = true → xs ≠ JList.nil → 1 + (strElems xs).length ≤ f →
    parseElems f (strElems xs ++ (']' :: rest)) = some (xs, rest)
  | JList.nil, f, rest => by
    intro _ hne _
    exact absurd rfl hne
  | JList.cons x tl, f, rest => by
    intro hnu _ hf
    have hx : noUndefJ x = true ∧ noUndefL tl = true := by
      simpa [noUndefL, Bool.and_eq_true] using hnu
    cases f with
    | zero => omega
    | succ f2 =>
      unfold parseElems
      cases tl with
      | nil =>
        simp only [strElems]
        have hlen : (strV x).length ≤ f2 := by
          have : (strElems (JList.cons x JList.nil)).length = (strV x).length := by
            simp [strElems]
          omega
        rw [parseV_round x f2 (']' :: rest) hx.1 hlen (numStop_rbracket rest)]
        simp only [Option.some_bind]
        rw [skipWs_cons _ _ (by decide)]
        simp +decide
      | cons y tl2 =>
        simp only [strElems, List.cons_append, List.append_assoc]
        have hlenx : (strV x).length ≤ f2 := by
          have h1 := strElems_cons_cons_len x y tl2
          omega
        rw [parseV_round x f2 _ hx.1 hlenx (numStop_comma _)]
        simp only [Option.some_bind]
        rw [skipWs_cons _ _ (by decide)]
        simp only []
        rw [parseElems_round (JList.cons y tl2) f2 rest hx.2 (by simp) (by
          have h1 := strElems_cons_cons_len x y tl2
          have h2 := strV_len_pos x
          omega)]
        rfl

theorem parseFields_round : ∀ (fs : JFields) (f : Nat) (rest : List Char),
    noUndefF fs = true → fs ≠ JFields.nil → 1 + (strFields fs).length ≤ f →
    parseFields f (strFields fs ++ (rbrace :: rest)) = some (fs, rest)
  | JFields.nil, f, rest => by
    intro _ hne _
    exact absurd rfl hne
  | JFields.cons k v tl, f, rest => by
    intro hnu _ hf
    have hx : noUndefJ v = true ∧ noUndefF tl = true := by
      simpa [noUndefF, Bool.and_eq_true] using hnu
    have hflen : (strFields (JFields.cons k v tl)).length =
        (escList k.data).length + 3 + (strV v).length +
          (if (strFields tl).isEmpty then 0 else 1 + (strFields tl).length) := by
      rw [strFields_cons_eq k v tl hx.1]
      by_cases he : (strFields tl).isEmpty
      · simp [he]
        omega
      · simp [he]
        omega
    cases f with
    | zero => omega
    | succ f2 =>
      unfold parseFields
      rw [strFields_cons_eq k v tl hx.1]
      simp only [List.cons_append, List.append_assoc]
      rw [skipWs_cons _ _ (by decide)]
      simp only []
      rw [parseStrBody_round k.data]
      simp only [Option.some_bind]
      rw [skipWs_cons _ _ (by decide)]
      simp only []
      by_cases htl : tl = JFields.nil
      · subst htl
        simp only [strFields, List.isEmpty_nil, if_true, List.nil_append]
        rw [parseV_round v f2 (rbrace :: rest) hx.1 (by
          rw [if_pos (by simp [strFields])] at hflen
          omega) (numStop_rbrace rest)]
        simp only [Option.some_bind]
        rw [skipWs_cons _ _ (by decide)]
        simp +decide
      · have hne : (strFields tl).isEmpty = false := by
          rcases hb : (strFields tl).isEmpty with _ | _
          · rfl
          · exact absurd ((strFields_isEmpty tl hx.2).mp hb) htl
        rw [hne]
        simp only [Bool.false_eq_true, if_false, List.cons_append, List.nil_append]
        rw [parseV_round v f2 _ hx.1 (by
          rw [hne] at hflen
          simp only [Bool.false_eq_true, if_false] at hflen
          omega) (numStop_comma _)]
        simp only [Option.some_bind]
        rw [skipWs_cons _ _ (by decide)]
        simp only []
        rw [parseFields_round tl f2 rest hx.2 htl (by
          rw [hne] at hflen
          simp only [Bool.false_eq_true, if_false] at hflen
          omega)]
        rfl

end

/-- Parsing inverts serialization for values without the undefined sentinel. -/
theorem jsonParse_stringifyJ (v : Json) (h : noUndefJ v = true) :
    jsonParse (stringifyJ v) = some v := by
  have hlen : (strV v).length ≤ (stringifyJ v).length + 1 := by
    show (strV v).length ≤ (strV v).length + 1
    omega
  have hr := parseV_round v ((stringifyJ v).length + 1) [] h hlen (by decide)
  rw [List.append_nil] at hr
  unfold jsonParse
  rw [show (stringifyJ v).data = strV v from rfl, hr]
  simp [skipWs]


theorem trimList_eq_self (l : List Char) (h1 : nonWsStart l = true)
    (h2 : nonWsStart l.reverse = true) : trimList l = l := by
  unfold trimList
  have hd1 : l.dropWhile isWs = l := by
    cases l with
    | nil => rfl
    | cons c t =>
      simp only [nonWsStart, Bool.not_eq_true'] at h1
      simp [List.dropWhile_cons, h1]
  rw [hd1]
  have hd2 : l.reverse.dropWhile isWs = l.reverse := by
    cases hr : l.reverse with
    | nil => rfl
    | cons c t =>
      rw [hr] at h2
      simp only [nonWsStart, Bool.not_eq_true'] at h2
      simp [List.dropWhile_cons, h2]
  rw [hd2, List.reverse_reverse]


theorem numberPatternTest_head_false (c : Char) (l : List Char)
    (hdash : c ≠ '-') (hdig : isDig c = false) :
    numberPatternTest (c :: l) = false := by
  have hsn : splitSign (c :: l) = (false, c :: l) := by
    unfold splitSign
    simp only [List.headD_cons]
    rw [if_neg hdash]
  have htd : takeDigits (c :: l) = ([], c :: l) := by
    unfold takeDigits
    rw [hdig]
    simp
  simp only [numberPatternTest, hsn, htd]
  simp


theorem coerce_of_trimmed_container (o : Json) (h : noUndefJ o = true)
    (hhead : nonWsStart (strV o) = true) (hrev : nonWsStart (strV o).reverse = true)
    (hne : (strV o).isEmpty = false)
    (ht : lowerList (strV o) ≠ "true".data)
    (hf : lowerList (strV o) ≠ "false".data)
    (hn : lowerList (strV o) ≠ "null".data)
    (hnum : numberPatternTest (strV o) = false)
    (hdelim : ((strV o).headD ' ' = lbrace ∧ (strV o).getLastD ' ' = rbrace) ∨
      ((strV o).headD ' ' = '[' ∧ (strV o).getLastD ' ' = ']')) :
    coerceStringValue (stringifyJ o) = o := by
  unfold coerceStringValue
  rw [show (stringifyJ o).data = strV o from rfl]
  rw [trimList_eq_self _ hhead hrev]
  rw [if_neg (by rw [hne]; exact Bool.false_ne_true)]
  rw [if_neg ht, if_neg hf, if_neg hn]
  rw [if_neg (by rw [hnum]; exact Bool.false_ne_true)]
  rw [if_pos hdelim]
  rw [show (⟨strV o⟩ : String) = stringifyJ o from rfl]
  rw [jsonParse_stringifyJ o h]


/-- Coercion inverts form-field serialization for plain container values. -/
theorem coerceStringValue_stringifyJ (o : Json) (h : noUndefJ o = true)
    (hc : isContainerJ o = true) :
    coerceStringValue (stringifyJ o) = o := by
  cases o with
  | null => simp [isContainerJ] at hc
  | undef => simp [isContainerJ] at hc
  | bool b => simp [isContainerJ] at hc
  | num n => simp [isContainerJ] at hc
  | str s => simp [isContainerJ] at hc
  | arr xs =>
    have hshape : strV (Json.arr xs) = ('[' :: strElems xs) ++ [']'] := by
      show '[' :: (strElems xs ++ [']']) = ('[' :: strElems xs) ++ [']']
      simp
    apply coerce_of_trimmed_container _ h
    · rw [hshape]
      show nonWsStart ('[' :: (strElems xs ++ [']'])) = true
      simp only [nonWsStart]
      decide
    · rw [hshape, List.reverse_append]
      show nonWsStart (']' :: (('[' :: strElems xs).reverse)) = true
      simp only [nonWsStart]
      decide
    · rw [hshape]
      simp
    · rw [hshape]
      simp only [lowerList, List.map_cons, List.cons_append]
      intro hcon
      have := List.head_eq_of_cons_eq hcon
      revert this
      decide
    · rw [hshape]
      simp only [lowerList, List.map_cons, List.cons_append]
      intro hcon
      have := List.head_eq_of_cons_eq hcon
      revert this
      decide
    · rw [hshape]
      simp only [lowerList, List.map_cons, List.cons_append]
      intro hcon
      have := List.head_eq_of_cons_eq hcon
      revert this
      decide
    · rw [hshape]
      show numberPatternTest ('[' :: (strElems xs ++ [']'])) = false
      exact numberPatternTest_head_false _ _ (by decide) (by decide)
    · rw [hshape]
      refine Or.inr ⟨?_, ?_⟩
      · simp
      · rw [List.getLastD_concat]
  | obj fs =>
    have hshape : strV (Json.obj fs) = (lbrace :: strFields fs) ++ [rbrace] := by
      show lbrace :: (strFields fs ++ [rbrace]) = (lbrace :: strFields fs) ++ [rbrace]
      simp
    apply coerce_of_trimmed_container _ h
    · rw [hshape]
      show nonWsStart (lbrace :: (strFields fs ++ [rbrace])) = true
      simp only [nonWsStart]
      decide
    · rw [hshape, List.reverse_append]
      show nonWsStart (rbrace :: ((lbrace :: strFields fs).reverse)) = true
      simp only [nonWsStart]
      decide
    · rw [hshape]
      simp
    · rw [hshape]
      simp only [lowerList, List.map_cons, List.cons_append]
      intro hcon
      have := List.head_eq_of_cons_eq hcon
      revert this
      decide
    · rw [hshape]
      simp only [lowerList, List.map_cons, List.cons_append]
      intro hcon
      have := List.head_eq_of_cons_eq hcon
      revert this
      decide
    · rw [hshape]
      simp only [lowerList, List.map_cons, List.cons_append]
      intro hcon
      have := List.head_eq_of_cons_eq hcon
      revert this
      decide
    · rw [hshape]
      show numberPatternTest (lbrace :: (strFields fs ++ [rbrace])) = false
      exact numberPatternTest_head_false _ _ (by decide) (by decide)
    · rw [hshape]
      refine Or.inl ⟨?_, ?_⟩
      · simp
      · rw [List.getLastD_concat]


theorem hasDoubleSlash_cons (c : Char) (l : List Char) :
    hasDoubleSlash (c :: l) =
      (match l with
       | [] => false
       | d :: _ => (c = '/' && d = '/') || hasDoubleSlash l) := by
  cases l <;> rfl


theorem getLastD_irrel (l : List Char) (h : l ≠ []) (d1 d2 : Char) :
    l.getLastD d1 = l.getLastD d2 := by
  cases l with
  | nil => exact absurd rfl h
  | cons c t => rw [List.getLastD_cons, List.getLastD_cons]


theorem noDS_append (a b : List Char) (ha : hasDoubleSlash a = false)
    (hb : hasDoubleSlash b = false)
    (hj : ¬(a.getLastD 'x' = '/' ∧ b.headD 'x' = '/')) :
    hasDoubleSlash (a ++ b) = false := by
  induction a with
  | nil => simpa using hb
  | cons c a ih =>
    rw [List.cons_append, hasDoubleSlash_cons]
    cases a with
    | nil =>
      simp only [List.nil_append]
      cases b with
      | nil => rfl
      | cons d r =>
        have hj2 : ¬(c = '/' ∧ d = '/') := by
          intro hcd
          exact hj ⟨by simp [hcd.1], by simp [hcd.2]⟩
        simp only [hb]
        simp only [Bool.or_false]
        rw [Bool.and_eq_false_iff]
        by_cases hc : c = '/'
        · right
          simp only [decide_eq_false_iff_not]
          intro hd
          exact hj2 ⟨hc, hd⟩
        · left
          simp only [decide_eq_false_iff_not]
          exact hc
    | cons e a2 =>
      rw [hasDoubleSlash_cons] at ha
      simp only [Bool.or_eq_false_iff] at ha
      have ihr := ih ha.2 (by
        intro hcon
        apply hj
        refine ⟨?_, hcon.2⟩
        rw [show (c :: e :: a2).getLastD 'x' = (e :: a2).getLastD 'x' from by
          simp [List.getLastD_cons]]
        exact hcon.1)
      simp only [List.cons_append] at ihr
      simp only [List.cons_append, ihr, Bool.or_false]
      exact ha.1


theorem dropWhile_res (p : Char → Bool) (l : List Char) :
    l.dropWhile p = [] ∨ p ((l.dropWhile p).headD 'x') = false := by
  induction l with
  | nil => exact Or.inl rfl
  | cons c t ih =>
    rw [List.dropWhile_cons]
    by_cases hc : p c = true
    · rw [if_pos hc]
      exact ih
    · rw [if_neg hc]
      right
      simp only [List.headD_cons]
      cases hpc : p c with
      | false => rfl
      | true => exact absurd hpc hc


theorem getLastD_reverse (l : List Char) (d : Char) :
    l.reverse.getLastD d = l.headD d := by
  cases l with
  | nil => rfl
  | cons c t =>
    simp only [List.reverse_cons, List.headD_cons]
    rw [List.getLastD_concat]


theorem normalizeBaseUrl_last (b : String) :
    (normalizeBaseUrl b).data.getLastD 'x' ≠ '/' ∨ (normalizeBaseUrl b).data = [] := by
  show ((b.data.reverse.dropWhile (· == '/')).reverse).getLastD 'x' ≠ '/' ∨ _
  rcases dropWhile_res (· == '/') b.data.reverse with h | h
  · right
    show (b.data.reverse.dropWhile (· == '/')).reverse = []
    rw [h]
    rfl
  · left
    rw [getLastD_reverse]
    intro hcon
    rw [hcon] at h
    simp at h


theorem dropWhile_idem (p : Char → Bool) (l : List Char) :
    (l.dropWhile p).dropWhile p = l.dropWhile p := by
  rcases dropWhile_res p l with h | h
  · rw [h]
    rfl
  · cases hc : l.dropWhile p with
    | nil => rfl
    | cons c t =>
      rw [hc] at h
      simp only [List.headD_cons] at h
      rw [List.dropWhile_cons, h]
      simp


theorem normalizeBaseUrl_idem (b : String) :
    normalizeBaseUrl (normalizeBaseUrl b) = normalizeBaseUrl b := by
  have h2 : (normalizeBaseUrl b).data.reverse.dropWhile (· == '/') =
      b.data.reverse.dropWhile (· == '/') := by
    show ((b.data.reverse.dropWhile (· == '/')).reverse).reverse.dropWhile (· == '/') =
      b.data.reverse.dropWhile (· == '/')
    rw [List.reverse_reverse]
    exact dropWhile_idem _ _
  show String.mk (((normalizeBaseUrl b).data.reverse.dropWhile (· == '/')).reverse) =
    String.mk ((b.data.reverse.dropWhile (· == '/')).reverse)
  rw [h2]


theorem startsList_exists (p s : List Char) (h : startsList p s = true) :
    ∃ r, s = p ++ r := by
  induction p generalizing s with
  | nil => exact ⟨s, rfl⟩
  | cons c q ih =>
    cases s with
    | nil => simp [startsList] at h
    | cons d t =>
      simp only [startsList, Bool.and_eq_true, beq_iff_eq] at h
      obtain ⟨rfl, h2⟩ := h
      obtain ⟨r, rfl⟩ := ih t h2
      exact ⟨r, rfl⟩


theorem startsList_of_append (p r : List Char) : startsList p (p ++ r) = true := by
  induction p with
  | nil => rfl
  | cons c q ih => simp [startsList, ih]


theorem getLastD_append_right (a r : List Char) (d : Char) (h : r ≠ []) :
    (a ++ r).getLastD d = r.getLastD d := by
  induction a generalizing d with
  | nil => rfl
  | cons c a2 ih =>
    rw [List.cons_append, List.getLastD_cons, ih c]
    exact getLastD_irrel r h c d


theorem hasDoubleSlash_clean (e : List Char) (he : hasDoubleSlash e = false) :
    hasDoubleSlash (if e.headD 'x' = '/' then e else '/' :: e) = false := by
  by_cases hh : e.headD 'x' = '/'
  · rw [if_pos hh]
    exact he
  · rw [if_neg hh]
    rw [hasDoubleSlash_cons]
    cases e with
    | nil => rfl
    | cons c t =>
      simp only [List.headD_cons] at hh
      simp [he, hh]


theorem hasDoubleSlash_api (clean : List Char) (hc : hasDoubleSlash clean = false) :
    hasDoubleSlash ('/' :: 'a' :: 'p' :: 'i' :: clean) = false := by
  have h1 : hasDoubleSlash ('/' :: 'a' :: 'p' :: 'i' :: clean) =
      hasDoubleSlash ('i' :: clean) := rfl
  rw [h1, hasDoubleSlash_cons]
  cases clean with
  | nil => rfl
  | cons c t => simp +decide [hc]


theorem buildUrl_relative (b e : String) (hrel : startsWithScheme e.data = false) :
    (buildUrl b e).data =
      b.data ++ (if startsList "/api/".data
          (if e.data.headD 'x' = '/' then e.data else '/' :: e.data) then []
        else ['/', 'a', 'p', 'i']) ++
        (if e.data.headD 'x' = '/' then e.data else '/' :: e.data) := by
  unfold buildUrl
  have h1 : ¬(startsList "http://".data e.data || startsList "https://".data e.data) = true := by
    simpa [startsWithScheme] using hrel
  rw [if_neg h1]
  simp only []
  by_cases hapi : startsList ['/', 'a', 'p', 'i', '/']
      (if e.data.headD 'x' = '/' then e.data else '/' :: e.data) = true
  · rw [if_pos hapi, if_pos hapi]
    show b.data ++ (if e.data.headD 'x' = '/' then e.data else '/' :: e.data) =
      b.data ++ [] ++ (if e.data.headD 'x' = '/' then e.data else '/' :: e.data)
    simp
  · rw [if_neg hapi, if_neg hapi]


theorem buildUrl_api_prefix (b e : String) (hrel : startsWithScheme e.data = false) :
    ∃ tail, (buildUrl b e).data = b.data ++ ('/' :: 'a' :: 'p' :: 'i' :: tail) := by
  rw [buildUrl_relative b e hrel]
  by_cases hapi : startsList "/api/".data
      (if e.data.headD 'x' = '/' then e.data else '/' :: e.data) = true
  · obtain ⟨r, hr⟩ := startsList_exists _ _ hapi
    refine ⟨'/' :: r, ?_⟩
    rw [if_pos hapi, hr]
    simp
  · refine ⟨(if e.data.headD 'x' = '/' then e.data else '/' :: e.data), ?_⟩
    rw [if_neg hapi]
    simp


theorem buildUrl_no_double_slash (b e : String)
    (hscheme : startsWithScheme (normalizeBaseUrl b).data = true)
    (hb : hasDoubleSlash (afterScheme (normalizeBaseUrl b).data) = false)
    (he : hasDoubleSlash e.data = false)
    (hrel : startsWithScheme e.data = false) :
    hasDoubleSlash (afterScheme (buildUrl (normalizeBaseUrl b) e).data) = false := by
  have hclean : hasDoubleSlash
      (if e.data.headD 'x' = '/' then e.data else '/' :: e.data) = false :=
    hasDoubleSlash_clean e.data he
  have hsuffix : hasDoubleSlash
      ((if startsList "/api/".data
          (if e.data.headD 'x' = '/' then e.data else '/' :: e.data) then []
        else ['/', 'a', 'p', 'i']) ++
        (if e.data.headD 'x' = '/' then e.data else '/' :: e.data)) = false := by
    by_cases hapi : startsList "/api/".data
        (if e.data.headD 'x' = '/' then e.data else '/' :: e.data) = true
    · rw [if_pos hapi, List.nil_append]
      exact hclean
    · rw [if_neg hapi]
      exact hasDoubleSlash_api _ hclean
  have hlast := normalizeBaseUrl_last b
  rw [buildUrl_relative (normalizeBaseUrl b) e hrel, List.append_assoc]
  -- name the two parts
  obtain ⟨suffix, hsufeq⟩ : ∃ s, ((if startsList "/api/".data
      (if e.data.headD 'x' = '/' then e.data else '/' :: e.data) then []
    else ['/', 'a', 'p', 'i']) ++
      (if e.data.headD 'x' = '/' then e.data else '/' :: e.data)) = s := ⟨_, rfl⟩
  rw [hsufeq] at hsuffix
  rw [hsufeq]
  simp only [startsWithScheme, Bool.or_eq_true] at hscheme
  rcases hscheme with hs | hs
  · obtain ⟨r, hr⟩ := startsList_exists _ _ hs
    have hdropbase : afterScheme (normalizeBaseUrl b).data = r := by
      unfold afterScheme
      rw [if_pos hs, hr]
      rw [show (7 : Nat) = ("http://".data).length from rfl, List.drop_left]
    have hs2 : startsList "http://".data ((normalizeBaseUrl b).data ++ suffix) = true := by
      rw [hr, List.append_assoc]
      exact startsList_of_append _ _
    have hdrop2 : afterScheme ((normalizeBaseUrl b).data ++ suffix) = r ++ suffix := by
      unfold afterScheme
      rw [if_pos hs2, hr, List.append_assoc]
      rw [show (7 : Nat) = ("http://".data).length from rfl, List.drop_left]
    rw [hdrop2]
    rw [hdropbase] at hb
    apply noDS_append r suffix hb hsuffix
    rintro ⟨hlastr, _⟩
    rcases hlast with hl | hl
    · apply hl
      rw [hr]
      by_cases hre : r = []
      · rw [hre] at hlastr
        simp at hlastr
      · rw [getLastD_append_right _ _ _ hre]
        exact hlastr
    · rw [hl] at hr
      exact absurd hr.symm (by simp)
  · obtain ⟨r, hr⟩ := startsList_exists _ _ hs
    have hnothttp : startsList "http://".data ((normalizeBaseUrl b).data ++ suffix) = false := by
      rw [hr, List.append_assoc]
      show startsList "http://".data ("https://".data ++ (r ++ suffix)) = false
      simp [startsList]
    have hnothttp0 : startsList "http://".data ((normalizeBaseUrl b).data) = false := by
      rw [hr]
      show startsList "http://".data ("https://".data ++ r) = false
      simp [startsList]
    have hdropbase : afterScheme (normalizeBaseUrl b).data = r := by
      unfold afterScheme
      rw [hnothttp0]
      simp only [Bool.false_eq_true, if_false]
      rw [if_pos hs, hr]
      rw [show (8 : Nat) = ("https://".data).length from rfl, List.drop_left]
    have hs2 : startsList "https://".data ((normalizeBaseUrl b).data ++ suffix) = true := by
      rw [hr, List.append_assoc]
      exact startsList_of_append _ _
    have hdrop2 : afterScheme ((normalizeBaseUrl b).data ++ suffix) = r ++ suffix := by
      unfold afterScheme
      rw [hnothttp]
      simp only [Bool.false_eq_true, if_false]
      rw [if_pos hs2, hr, List.append_assoc]
      rw [show (8 : Nat) = ("https://".data).length from rfl, List.drop_left]
    rw [hdrop2]
    rw [hdropbase] at hb
    apply noDS_append r suffix hb hsuffix
    rintro ⟨hlastr, _⟩
    rcases hlast with hl | hl
    · apply hl
      rw [hr]
      by_cases hre : r = []
      · rw [hre] at hlastr
        simp at hlastr
      · rw [getLastD_append_right _ _ _ hre]
        exact hlastr
    · rw [hl] at hr
      exact absurd hr.symm (by simp)


theorem toLower_inv (c d : Char) (hd : 97 ≤ d.toNat ∧ d.toNat ≤ 122)
    (h : Char.toLower c = d) : c = d ∨ c.toNat = d.toNat - 32 := by
  unfold Char.toLower at h
  by_cases hr : c.toNat ≥ 65 ∧ c.toNat ≤ 90
  · rw [if_pos hr] at h
    right
    have h2 : (Char.ofNat (c.toNat + 32)).toNat = c.toNat + 32 := by
      unfold Char.ofNat
      rw [dif_pos (Or.inl (by omega))]
      rfl
    have h3 := congrArg Char.toNat h
    rw [h2] at h3
    omega
  · rw [if_neg hr] at h
    exact Or.inl h


theorem lowerList_head (t w : List Char) (hw : w ≠ []) (h : lowerList t = w) :
    Char.toLower (t.headD 'x') = w.headD 'x' := by
  cases t with
  | nil =>
    rw [show lowerList [] = [] from rfl] at h
    exact absurd h.symm hw
  | cons c tl =>
    rw [show lowerList (c :: tl) = Char.toLower c :: lowerList tl from rfl] at h
    rw [← h]
    simp


theorem pattern_head (t : List Char) (h : numberPatternTest t = true) :
    t.headD 'x' = '-' ∨ isDig (t.headD 'x') = true := by
  by_cases hd : t.headD 'x' = '-'
  · exact Or.inl hd
  · right
    have hsn : splitSign t = (false, t) := splitSign_other t hd
    simp only [numberPatternTest, hsn] at h
    cases t with
    | nil => simp [takeDigits] at h
    | cons c l =>
      by_cases hc : isDig c = true
      · simpa using hc
      · have hcf : isDig c = false := by
          cases hpc : isDig c with
          | false => rfl
          | true => exact absurd hpc hc
        have htd : takeDigits (c :: l) = ([], c :: l) := by
          unfold takeDigits
          rw [hcf]
          simp
        rw [htd] at h
        simp at h


theorem pattern_ne_nil (t : List Char) (h : numberPatternTest t = true) : t ≠ [] := by
  intro hcon
  rw [hcon] at h
  exact absurd h (by decide)


theorem pattern_not_lower (t w : List Char) (hp : numberPatternTest t = true)
    (hw : 97 ≤ (w.headD 'x').toNat ∧ (w.headD 'x').toNat ≤ 122)
    (hwne : w ≠ []) :
    lowerList t ≠ w := by
  intro hcon
  have hhead := lowerList_head t w hwne hcon
  rcases toLower_inv _ _ hw hhead with he | he
  · rcases pattern_head t hp with hm | hm
    · rw [hm] at he
      have := congrArg Char.toNat he.symm
      rw [show ('-').toNat = 45 from rfl] at this
      omega
    · rw [he] at hm
      simp only [isDig, Bool.and_eq_true, decide_eq_true_eq] at hm
      omega
  · rcases pattern_head t hp with hm | hm
    · rw [hm] at he
      rw [show ('-').toNat = 45 from rfl] at he
      omega
    · simp only [isDig, Bool.and_eq_true, decide_eq_true_eq] at hm
      omega


theorem headD_irrel (l : List Char) (h : l ≠ []) (d1 d2 : Char) : l.headD d1 = l.headD d2 := by
  cases l with
  | nil => exact absurd rfl h
  | cons c t => rfl


theorem coerce_ws (s : String) (h : trimList s.data = []) :
    coerceStringValue s = Json.str s := by
  unfold coerceStringValue
  simp only []
  rw [if_pos (by rw [h]; rfl)]


theorem lower_ne_nil (t w : List Char) (hw : w ≠ []) (h : lowerList t = w) : t ≠ [] := by
  intro hcon
  rw [hcon] at h
  exact hw h.symm


theorem isEmpty_false_of_ne_nil (t : List Char) (h : t ≠ []) : t.isEmpty = false := by
  cases t with
  | nil => exact absurd rfl h
  | cons c l => rfl


theorem coerce_kw_true (s : String) (h : lowerList (trimList s.data) = "true".data) :
    coerceStringValue s = Json.bool true := by
  unfold coerceStringValue
  simp only []
  rw [if_neg (by
    rw [isEmpty_false_of_ne_nil _ (lower_ne_nil _ _ (by decide) h)]
    exact Bool.false_ne_true)]
  rw [if_pos h]


theorem coerce_kw_false (s : String) (h : lowerList (trimList s.data) = "false".data) :
    coerceStringValue s = Json.bool false := by
  unfold coerceStringValue
  simp only []
  rw [if_neg (by
    rw [isEmpty_false_of_ne_nil _ (lower_ne_nil _ _ (by decide) h)]
    exact Bool.false_ne_true)]
  rw [if_neg (by
    rw [h]
    decide)]
  rw [if_pos h]


theorem coerce_kw_null (s : String) (h : lowerList (trimList s.data) = "null".data) :
    coerceStringValue s = Json.null := by
  unfold coerceStringValue
  simp only []
  rw [if_neg (by
    rw [isEmpty_false_of_ne_nil _ (lower_ne_nil _ _ (by decide) h)]
    exact Bool.false_ne_true)]
  rw [if_neg (by
    rw [h]
    decide)]
  rw [if_neg (by
    rw [h]
    decide)]
  rw [if_pos h]


theorem coerce_number (s : String) (h : numberPatternTest (trimList s.data) = true) :
    coerceStringValue s = Json.num (decOf (trimList s.data)) := by
  unfold coerceStringValue
  simp only []
  rw [if_neg (by
    rw [isEmpty_false_of_ne_nil _ (pattern_ne_nil _ h)]
    exact Bool.false_ne_true)]
  rw [if_neg (pattern_not_lower _ _ h (by decide) (by decide))]
  rw [if_neg (pattern_not_lower _ _ h (by decide) (by decide))]
  rw [if_neg (pattern_not_lower _ _ h (by decide) (by decide))]
  rw [if_pos h]


theorem coerce_delimited (s : String)
    (h : ((trimList s.data).headD ' ' = lbrace ∧ (trimList s.data).getLastD ' ' = rbrace) ∨
      ((trimList s.data).headD ' ' = '[' ∧ (trimList s.data).getLastD ' ' = ']')) :
    coerceStringValue s =
      (match jsonParse ⟨trimList s.data⟩ with
       | some j => j
       | none => Json.str s) := by
  have hne : trimList s.data ≠ [] := by
    intro hcon
    rw [hcon] at h
    rcases h with ⟨h1, _⟩ | ⟨h1, _⟩ <;> revert h1 <;> decide
  have hheadv : (trimList s.data).headD 'x' = lbrace ∨ (trimList s.data).headD 'x' = '[' := by
    rcases h with ⟨h1, _⟩ | ⟨h1, _⟩
    · left
      rw [headD_irrel _ hne 'x' ' ']
      exact h1
    · right
      rw [headD_irrel _ hne 'x' ' ']
      exact h1
  have hkw : ∀ w : List Char, 97 ≤ (w.headD 'x').toNat → (w.headD 'x').toNat ≤ 122 →
      w ≠ [] → lowerList (trimList s.data) ≠ w := by
    intro w hw1 hw2 hwne hcon
    have hh := lowerList_head _ _ hwne hcon
    rcases hheadv with hv | hv <;> rw [hv] at hh
    · rcases toLower_inv _ _ ⟨hw1, hw2⟩ hh with he | he
      · have := congrArg Char.toNat he
        rw [show lbrace.toNat = 123 from rfl] at this
        omega
      · rw [show lbrace.toNat = 123 from rfl] at he
        omega
    · rcases toLower_inv _ _ ⟨hw1, hw2⟩ hh with he | he
      · have := congrArg Char.toNat he
        rw [show ('[').toNat = 91 from rfl] at this
        omega
      · rw [show ('[').toNat = 91 from rfl] at he
        omega
  have hnum : numberPatternTest (trimList s.data) = false := by
    cases hc : trimList s.data with
    | nil => exact absurd hc hne
    | cons c l =>
      have hcv : c = lbrace ∨ c = '[' := by
        rcases hheadv with hv | hv <;> rw [hc] at hv <;> simp at hv
        · exact Or.inl hv
        · exact Or.inr hv
      apply numberPatternTest_head_false
      · rcases hcv with rfl | rfl <;> decide
      · rcases hcv with rfl | rfl <;> decide
  unfold coerceStringValue
  simp only []
  rw [if_neg (by
    rw [isEmpty_false_of_ne_nil _ hne]
    exact Bool.false_ne_true)]
  rw [if_neg (hkw _ (by decide) (by decide) (by decide))]
  rw [if_neg (hkw _ (by decide) (by decide) (by decide))]
  rw [if_neg (hkw _ (by decide) (by decide) (by decide))]
  rw [if_neg (by
    rw [hnum]
    exact Bool.false_ne_true)]
  rw [if_pos h]


/-- Claim C1: the dispatch behavior around skipAuth and header injection. skipAuth
suppresses the token and the Authorization header while composing the URL from the
normalized base; without caller headers a resolved token is injected as a Bearer
Authorization header; but with any caller-supplied headers the final options keep
only the caller headers, so the injected Authorization header is lost even though
the caller never set an Authorization key. -/
theorem claim_C1_bug :
    (∀ tok : Option String,
      pocketBaseRequest "http://b" "GET" "/collections/x/records" none none
        { skipAuth := some true } tok =
      pocketBaseRequest "http://b" "GET" "/collections/x/records" none none
        { skipAuth := some true } none) ∧
    (pocketBaseRequest "http://b" "GET" "/collections/x/records" none none
      { skipAuth := some true } (some "tok")).url = "http://b/api/collections/x/records" ∧
    headerValue (pocketBaseRequest "http://b" "GET" "/collections/x/records" none none
      { skipAuth := some true } (some "tok")).headers "Authorization" = none ∧
    headerValue (pocketBaseRequest "http://b" "GET" "/x" none none {} (some "tok")).headers
      "Authorization" = some "Bearer tok" ∧
    (pocketBaseRequest "http://b" "GET" "/x" none none
      { headers := some [("X-Custom", "v")] } (some "tok")).headers = [("X-Custom", "v")] ∧
    headerValue (pocketBaseRequest "http://b" "GET" "/x" none none
      { headers := some [("X-Custom", "v")] } (some "tok")).headers "Authorization" = none := by
  refine ⟨fun tok => rfl, ?_, ?_, ?_, ?_, ?_⟩ <;> decide


/-- Claim C2 counterexample: a first-attempt error with no detectable status code at
all (so in particular not one failing with status 404, 405 or 410) still triggers
the second, legacy-endpoint attempt, against the only-if direction of the claim. -/
theorem claim_C2_counterexample :
    getStatusCode (jobj []) = none ∧
    (adminAuthAttempts "admin@example.com" "pw" (HOutcome.err (jobj []))
      (HOutcome.ok (jobj [("token", Json.str "t")]))).1.length = 2 := by
  decide


/-- Claim C2 amended: the superuser endpoint with identity/password is always tried
first; after a first-attempt error the legacy endpoint with email/password is tried
exactly when the error carries no truthy status outside 404/405/410 (in particular
also when no status is detectable); a fatal first status raises immediately with
that status; and when both attempts fail non-fatally the resolution fails with the
last error. -/
theorem claim_C2_amended : ∀ (email pw : String) (o1 o2 : HOutcome),
    (∃ rest, (adminAuthAttempts email pw o1 o2).1 =
      ⟨superuserEndpoint, jobj [("identity", Json.str email), ("password", Json.str pw)]⟩ :: rest) ∧
    (∀ e1, o1 = HOutcome.err e1 →
      ((adminAuthAttempts email pw o1 o2).1.length = 2 ↔ fatalStatus e1 = none)) ∧
    (∀ e1, o1 = HOutcome.err e1 → fatalStatus e1 = none →
      (adminAuthAttempts email pw o1 o2).1 =
        [⟨superuserEndpoint, jobj [("identity", Json.str email), ("password", Json.str pw)]⟩,
         ⟨legacyAdminEndpoint, jobj [("email", Json.str email), ("password", Json.str pw)]⟩]) ∧
    (∀ e1 s, o1 = HOutcome.err e1 → fatalStatus e1 = some s →
      (adminAuthAttempts email pw o1 o2).1 =
        [⟨superuserEndpoint, jobj [("identity", Json.str email), ("password", Json.str pw)]⟩] ∧
      (adminAuthAttempts email pw o1 o2).2 = AuthOutcome.apiError s e1) ∧
    (∀ e s, fatalStatus e = some s →
      getStatusCode e = some s ∧ s.m ≠ 0 ∧ valEqInt s 404 = false ∧
      valEqInt s 405 = false ∧ valEqInt s 410 = false) ∧
    (∀ e s, getStatusCode e = some s →
      (valEqInt s 404 = true ∨ valEqInt s 405 = true ∨ valEqInt s 410 = true) →
      fatalStatus e = none) ∧
    (∀ e, getStatusCode e = none → fatalStatus e = none) ∧
    (∀ e1 e2, o1 = HOutcome.err e1 → fatalStatus e1 = none → o2 = HOutcome.err e2 →
      fatalStatus e2 = none → (adminAuthAttempts email pw o1 o2).2 = AuthOutcome.failed e2) := by
  intro email pw o1 o2
  refine ⟨?_, ?_, ?_, ?_, ?_, ?_, ?_, ?_⟩
  · cases o1 with
    | ok r => exact ⟨[], rfl⟩
    | err e1 =>
      cases hf : fatalStatus e1 with
      | none =>
        cases o2 with
        | ok r =>
          exact ⟨[⟨legacyAdminEndpoint, jobj [("email", Json.str email), ("password", Json.str pw)]⟩],
            by simp [adminAuthAttempts, hf]⟩
        | err e2 =>
          cases hf2 : fatalStatus e2 with
          | none =>
            exact ⟨[⟨legacyAdminEndpoint, jobj [("email", Json.str email), ("password", Json.str pw)]⟩],
              by simp [adminAuthAttempts, hf, hf2]⟩
          | some s =>
            exact ⟨[⟨legacyAdminEndpoint, jobj [("email", Json.str email), ("password", Json.str pw)]⟩],
              by simp [adminAuthAttempts, hf, hf2]⟩
      | some s => exact ⟨[], by simp [adminAuthAttempts, hf]⟩
  · rintro e1 rfl
    cases hf : fatalStatus e1 with
    | none =>
      simp only [hf, iff_true]
      cases o2 with
      | ok r => simp [adminAuthAttempts, hf]
      | err e2 =>
        cases hf2 : fatalStatus e2 with
        | none => simp [adminAuthAttempts, hf, hf2]
        | some s => simp [adminAuthAttempts, hf, hf2]
    | some s => simp [adminAuthAttempts, hf]
  · rintro e1 rfl hf
    cases o2 with
    | ok r => simp [adminAuthAttempts, hf]
    | err e2 =>
      cases hf2 : fatalStatus e2 with
      | none => simp [adminAuthAttempts, hf, hf2]
      | some s => simp [adminAuthAttempts, hf, hf2]
  · rintro e1 s rfl hf
    constructor <;> simp [adminAuthAttempts, hf]
  · intro e s h
    unfold fatalStatus at h
    cases hg : getStatusCode e with
    | none => rw [hg] at h; exact absurd h (by simp)
    | some s0 =>
      rw [hg] at h
      replace h : (if ((s0.m ≠ 0 : Bool) && !(valEqInt s0 404 || valEqInt s0 405 || valEqInt s0 410)) = true
          then some s0 else none) = some s := h
      by_cases hc : ((s0.m ≠ 0 : Bool) && !(valEqInt s0 404 || valEqInt s0 405 || valEqInt s0 410)) = true
      · rw [if_pos hc] at h
        have hs : s0 = s := Option.some.inj h
        subst hs
        simp only [Bool.and_eq_true, Bool.not_eq_true', Bool.or_eq_false_iff,
          decide_eq_true_eq] at hc
        exact ⟨rfl, hc.1, hc.2.1.1, hc.2.1.2, hc.2.2⟩
      · rw [if_neg hc] at h
        exact absurd h (by simp)
  · intro e s hg hv
    unfold fatalStatus
    rw [hg]
    show (if ((s.m ≠ 0 : Bool) && !(valEqInt s 404 || valEqInt s 405 || valEqInt s 410)) = true
        then some s else none) = none
    rw [if_neg ?_]
    simp only [Bool.and_eq_true, Bool.not_eq_true', Bool.or_eq_false_iff, decide_eq_true_eq,
      not_and]
    intro _
    rcases hv with hv | hv | hv <;> rw [hv] <;> simp
  · intro e hg
    unfold fatalStatus
    rw [hg]
  · rintro e1 e2 rfl hf rfl hf2
    simp [adminAuthAttempts, hf, hf2]


/-- Claim C2 amended, exercised: a first-attempt 404 produces the two attempts in
order, superuser endpoint first and legacy endpoint second. -/
theorem claim_C2_amended_witness :
    (adminAuthAttempts "admin@example.com" "secret"
      (HOutcome.err (jobj [("statusCode", Json.num ⟨404, 0⟩)]))
      (HOutcome.ok (jobj [("token", Json.str "super-token")]))).1 =
      [⟨superuserEndpoint, jobj [("identity", Json.str "admin@example.com"), ("password", Json.str "secret")]⟩,
       ⟨legacyAdminEndpoint, jobj [("email", Json.str "admin@example.com"), ("password", Json.str "secret")]⟩] :=
  (claim_C2_amended "admin@example.com" "secret" _ _).2.2.1 _ rfl (by decide)


/-- Claim C3: the sensitive-key set does list adminPassword and apiToken, but the
membership test lowercases the probed key before looking it up in a set whose
stored forms are mixed-case, so adminPassword and apiToken are never matched and
values under those keys pass through unredacted; case-insensitive matching works
only for the all-lowercase entries, as the repository example shows; and past
depth 6 a value is returned entirely unchanged. -/
theorem claim_C3_bug :
    SENSITIVE_KEYS.contains "adminPassword" = true ∧
    SENSITIVE_KEYS.contains "apiToken" = true ∧
    isSensitiveKey "adminPassword" = false ∧
    isSensitiveKey "apiToken" = false ∧
    redactObject (jobj [("adminPassword", Json.str "secret")]) =
      jobj [("adminPassword", Json.str "secret")] ∧
    redactObject (jobj [("apiToken", Json.str "abc123")]) =
      jobj [("apiToken", Json.str "abc123")] ∧
    redactObject (jobj [("password", Json.str "p"),
        ("nested", jobj [("token", Json.str "t"), ("ok", Json.num ⟨1, 0⟩)])]) =
      jobj [("password", Json.str "[REDACTED]"),
        ("nested", jobj [("token", Json.str "[REDACTED]"), ("ok", Json.num ⟨1, 0⟩)])] ∧
    redactObject (jobj [("PASSWORD", Json.str "p"), ("Authorization", Json.str "Bearer xyz")]) =
      jobj [("PASSWORD", Json.str "[REDACTED]"), ("Authorization", Json.str "[REDACTED]")] ∧
    (∀ v : Json, redactJ v 7 = v) := by
  refine ⟨by decide, by decide, by decide, by decide, by decide, by decide, by decide, by decide, ?_⟩
  intro v
  cases v <;> simp [redactJ]


/-- Claim C4 counterexample: the probed response object is the error itself when no
response field is present, so the body resolution also consults error.data — here
the code resolves the body to the data map (leaving fieldErrors empty and raw the
data map), while the body precedence as the claim words it resolves the body to
the error object itself and produces one field error. -/
theorem claim_C4_counterexample :
    (extractPocketBaseError errDataTop).fieldErrors = [] ∧
    (specExtract errDataTop).fieldErrors = ["a: x"] ∧
    (extractPocketBaseError errDataTop).raw = jobj [("a", Json.str "x")] ∧
    (specExtract errDataTop).raw = errDataTop := by
  decide


/-- Claim C4 amended: the body is resolved as response.body, response.data,
error.body, then the error itself, where the probed response object is
error.response when present and the error object itself otherwise; raw is that
body; when body.data is an object its entries become one field-error line each, in
entry order, a string entry used verbatim, an entry with a truthy message field
contributing that message, and any other non-string entry its serialized form; the
message falls back from body.message to error.message to the fixed generic string;
and the repository test vector normalizes as recorded. -/
theorem claim_C4_amended :
    (∀ error, (extractPocketBaseError error).raw = bodyOf error) ∧
    (∀ error, getField error "response" = none → respOf error = error) ∧
    (∀ error r, getField error "response" = some (Json.obj r) → respOf error = Json.obj r) ∧
    (∀ error fs, getField (bodyOf error) "data" = some (Json.obj fs) →
      (extractPocketBaseError error).fieldErrors = fieldErrLines fs) ∧
    (∀ f d tl, fieldErrLines (JFields.cons f (Json.str d) tl) =
      (f ++ ": " ++ d) :: fieldErrLines tl) ∧
    (∀ f fs tl m, findField fs "message" = some m → jsTruthy m = true →
      fieldErrLines (JFields.cons f (Json.obj fs) tl) =
        (f ++ ": " ++ jsToString m) :: fieldErrLines tl) ∧
    (∀ f w tl, (∀ sv, w ≠ Json.str sv) →
      jsTruthy ((getField w "message").getD Json.undef) = false →
      fieldErrLines (JFields.cons f w tl) =
        (f ++ ": " ++ stringifyTemplate w) :: fieldErrLines tl) ∧
    (∀ error, getField (bodyOf error) "message" = none → getField error "message" = none →
      (extractPocketBaseError error).message = Json.str "PocketBase request failed") ∧
    extractPocketBaseError testError400 =
      ⟨Json.str "Validation failed", none, some (Json.num ⟨400, 0⟩),
        ["title: Required", "count: Must be a number"],
        jobj [("message", Json.str "Validation failed"),
          ("data", jobj [("title", jobj [("message", Json.str "Required")]),
            ("count", jobj [("message", Json.str "Must be a number")])])]⟩ := by
  refine ⟨fun error => rfl, ?_, ?_, ?_, fun f d tl => rfl, ?_, ?_, ?_, by decide⟩
  · intro error h
    simp [respOf, h, orJS]
  · intro error r h
    simp [respOf, h, orJS]
  · intro error fs h
    show fieldErrorsOf error = fieldErrLines fs
    unfold fieldErrorsOf
    rw [h]
    simp [orJS, jsTruthy, entriesOf]
  · intro f fs tl m h ht
    show (f ++ ": " ++ (if jsTruthy ((getField (Json.obj fs) "message").getD Json.undef) = true
        then jsToString ((getField (Json.obj fs) "message").getD Json.undef)
        else stringifyTemplate (Json.obj fs))) :: fieldErrLines tl =
      (f ++ ": " ++ jsToString m) :: fieldErrLines tl
    rw [show getField (Json.obj fs) "message" = some m from h]
    simp only [Option.getD_some]
    rw [if_pos ht]
  · intro f w tl hs ht
    cases w with
    | str sv => exact absurd rfl (hs sv)
    | null => rfl
    | undef => rfl
    | bool b => rfl
    | num n => rfl
    | arr xs => rfl
    | obj fs =>
      show (f ++ ": " ++ (if jsTruthy ((getField (Json.obj fs) "message").getD Json.undef) = true
          then jsToString ((getField (Json.obj fs) "message").getD Json.undef)
          else stringifyTemplate (Json.obj fs))) :: fieldErrLines tl =
        (f ++ ": " ++ stringifyTemplate (Json.obj fs)) :: fieldErrLines tl
      rw [if_neg (by rw [ht]; exact Bool.false_ne_true)]
  · intro error h1 h2
    show msgOf error = Json.str "PocketBase request failed"
    unfold msgOf
    rw [h1, h2]
    rfl


/-- Claim C4 amended, exercised on the repository test vector and on an empty error
object. -/
theorem claim_C4_amended_witness :
    (extractPocketBaseError testError400).fieldErrors =
      fieldErrLines (jfieldsOf [("title", jobj [("message", Json.str "Required")]),
        ("count", jobj [("message", Json.str "Must be a number")])]) ∧
    (extractPocketBaseError (jobj [])).message = Json.str "PocketBase request failed" :=
  ⟨claim_C4_amended.2.2.2.1 testError400 _ (by decide),
   claim_C4_amended.2.2.2.2.2.2.2.1 (jobj []) (by decide) (by decide)⟩


/-- Claim C5 counterexample: a numeric-string status at the top level is passed
through verbatim as a string, with no parsing into a number, so the statusCode
slot of the result is neither a number nor absent. -/
theorem claim_C5_counterexample :
    (extractPocketBaseError errStrStatus).statusCode = some (Json.str "400") ∧
    isNumOrNone (extractPocketBaseError errStrStatus).statusCode = false := by
  decide


/-- Claim C5 amended: the statusCode of the normalized error is the first
non-nullish of response.statusCode, response.status and top-level statusCode
(the probed response object being the error itself when no response field is
present), taken verbatim with no numeric-string parsing or validation: a string
value stays a string, a number stays that number. -/
theorem claim_C5_amended :
    (∀ error, (extractPocketBaseError error).statusCode =
      orJS (getField (respOf error) "statusCode")
        (orJS (getField (respOf error) "status") (getField error "statusCode"))) ∧
    (∀ s : String,
      (extractPocketBaseError (jobj [("statusCode", Json.str s)])).statusCode =
        some (Json.str s)) ∧
    (∀ n : JNum,
      (extractPocketBaseError (jobj [("response", jobj [("statusCode", Json.num n)])])).statusCode =
        some (Json.num n)) := by
  exact ⟨fun error => rfl, fun s => rfl, fun n => rfl⟩


/-- Claim C6: the string-coercion behavior of coerceStringValue — a string whose
trim is empty is kept; case-insensitive keyword strings become the true, false and
null literals; a trim matching the strict decimal pattern becomes its decimal
value; a brace- or bracket-delimited trim is JSON-parsed with the original string
kept on parse failure; and the repository examples evaluate accordingly, with
"007" kept as a string. -/
theorem claim_C6 :
    (∀ s, trimList s.data = [] → coerceStringValue s = Json.str s) ∧
    (∀ s, lowerList (trimList s.data) = "true".data → coerceStringValue s = Json.bool true) ∧
    (∀ s, lowerList (trimList s.data) = "false".data → coerceStringValue s = Json.bool false) ∧
    (∀ s, lowerList (trimList s.data) = "null".data → coerceStringValue s = Json.null) ∧
    (∀ s, numberPatternTest (trimList s.data) = true →
      coerceStringValue s = Json.num (decOf (trimList s.data))) ∧
    (∀ s, ((trimList s.data).headD ' ' = lbrace ∧ (trimList s.data).getLastD ' ' = rbrace) ∨
        ((trimList s.data).headD ' ' = '[' ∧ (trimList s.data).getLastD ' ' = ']') →
      coerceStringValue s =
        (match jsonParse ⟨trimList s.data⟩ with
         | some j => j
         | none => Json.str s)) ∧
    coerceStringValue "true" = Json.bool true ∧
    coerceStringValue "False" = Json.bool false ∧
    coerceStringValue "null" = Json.null ∧
    coerceStringValue "42" = Json.num ⟨42, 0⟩ ∧
    coerceStringValue "3.5" = Json.num ⟨35, 1⟩ ∧
    coerceStringValue "007" = Json.str "007" ∧
    coerceStringValue "  " = Json.str "  " ∧
    coerceStringValue "abc" = Json.str "abc" ∧
    coerceStringValue ⟨[lbrace, '"', 'a', '"', ':', '1', rbrace]⟩ = jobj [("a", Json.num ⟨1, 0⟩)] ∧
    coerceStringValue ⟨[lbrace, 'b', 'a', 'd', rbrace]⟩ = Json.str ⟨[lbrace, 'b', 'a', 'd', rbrace]⟩ ∧
    coerceStringValue "[1,2]" = jarr [Json.num ⟨1, 0⟩, Json.num ⟨2, 0⟩] :=
  ⟨coerce_ws, coerce_kw_true, coerce_kw_false, coerce_kw_null, coerce_number, coerce_delimited,
   by decide, by decide, by decide, by decide, by decide, by decide, by decide, by decide,
   by decide, by decide, by decide⟩


/-- Claim C6, exercised: the keyword, number and delimited clauses applied at
concrete strings. -/
theorem claim_C6_witness :
    coerceStringValue "TRUE" = Json.bool true ∧
    coerceStringValue " -12.75 " = Json.num (decOf (trimList " -12.75 ".data)) ∧
    coerceStringValue " [3] " =
      (match jsonParse ⟨trimList " [3] ".data⟩ with
       | some j => j
       | none => Json.str " [3] ") :=
  ⟨claim_C6.2.1 "TRUE" (by decide),
   claim_C6.2.2.2.2.1 " -12.75 " (by decide),
   claim_C6.2.2.2.2.2.1 " [3] " (by decide)⟩


/-- Claim C7: form-data round trip — a map or array value under a key is sent as
its compact JSON text, and coercing that text reconstructs the original value;
undefined entries are dropped, null becomes the empty string, containers their
JSON text, and the remaining scalars their string conversion. -/
theorem claim_C7 :
    (∀ o : Json, noUndefJ o = true → isContainerJ o = true →
      buildFormData (JFields.cons "x" o JFields.nil) = [("x", stringifyJ o)] ∧
      coerceStringValue (stringifyJ o) = o) ∧
    (∀ k tl, buildFormData (JFields.cons k Json.undef tl) = buildFormData tl) ∧
    (∀ k tl, buildFormData (JFields.cons k Json.null tl) = (k, "") :: buildFormData tl) ∧
    (∀ k o tl, isContainerJ o = true →
      buildFormData (JFields.cons k o tl) = (k, stringifyJ o) :: buildFormData tl) ∧
    (∀ k b tl, buildFormData (JFields.cons k (Json.bool b) tl) =
      (k, jsToString (Json.bool b)) :: buildFormData tl) ∧
    (∀ k n tl, buildFormData (JFields.cons k (Json.num n) tl) =
      (k, jsToString (Json.num n)) :: buildFormData tl) ∧
    (∀ k s tl, buildFormData (JFields.cons k (Json.str s) tl) =
      (k, s) :: buildFormData tl) := by
  refine ⟨?_, fun k tl => rfl, fun k tl => rfl, ?_, fun k b tl => rfl, fun k n tl => rfl,
    fun k s tl => rfl⟩
  · intro o h hc
    refine ⟨?_, coerceStringValue_stringifyJ o h hc⟩
    cases o <;> first | rfl | exact absurd hc (by simp [isContainerJ])
  · intro k o tl hc
    cases o <;> first | rfl | exact absurd hc (by simp [isContainerJ])


/-- Claim C7, exercised on the repository example map and list values. -/
theorem claim_C7_witness :
    (buildFormData (JFields.cons "x" (jobj [("ok", Json.bool true)]) JFields.nil) =
      [("x", stringifyJ (jobj [("ok", Json.bool true)]))] ∧
    coerceStringValue (stringifyJ (jobj [("ok", Json.bool true)])) = jobj [("ok", Json.bool true)]) ∧
    coerceStringValue (stringifyJ (jarr [Json.num ⟨1, 0⟩, Json.num ⟨2, 0⟩])) =
      jarr [Json.num ⟨1, 0⟩, Json.num ⟨2, 0⟩] :=
  ⟨claim_C7.1 (jobj [("ok", Json.bool true)]) (by decide) (by decide),
   (claim_C7.1 (jarr [Json.num ⟨1, 0⟩, Json.num ⟨2, 0⟩]) (by decide) (by decide)).2⟩


/-- Claim C8 counterexample: a token whose expiry is exactly 30 seconds ahead of
the current time is still accepted by the validity check, although the current
time is not more than 30 seconds before the expiry. -/
theorem claim_C8_counterexample :
    isExpired 1000000 (some 1030000) = false ∧
    usesCachedToken (some "tok") (some 1030000) 1000000 = true ∧
    ¬((1030000 : Int) - 30000 > 1000000) := by
  refine ⟨by decide, by decide, by decide⟩


/-- Claim C8 amended: with a positive clock, a missing expiry never expires; an
expiry is unexpired exactly when it is the falsy zero or the current time is at
most the expiry minus the 30-second margin; an expiry 10 seconds ahead is inside
the margin so the cached token is not used, while one 60 seconds ahead is used;
and a missing or empty cached token is never used. -/
theorem claim_C8_amended : ∀ now e : Int, 0 < now →
    isExpired now none = false ∧
    (isExpired now (some e) = false ↔ e = 0 ∨ now ≤ e - 30000) ∧
    usesCachedToken (some "tok") (some (now + 10000)) now = false ∧
    usesCachedToken (some "tok") (some (now + 60000)) now = true ∧
    usesCachedToken none (some (now + 60000)) now = false ∧
    usesCachedToken (some "") (some (now + 60000)) now = false ∧
    usesCachedToken (some "tok") none now = true := by
  intro now e hpos
  have hexp : ∀ d : Int, 0 < d → isExpired now (some (now + d)) = decide (0 > d - 30000) := by
    intro d hd
    unfold isExpired
    show (if now + d = 0 then false else decide (now > now + d - 30000)) = decide (0 > d - 30000)
    rw [if_neg (by omega)]
    congr 1
    simp only [eq_iff_iff, gt_iff_lt]
    omega
  refine ⟨rfl, ?_, ?_, ?_, rfl, ?_, rfl⟩
  · unfold isExpired
    show (if e = 0 then false else decide (now > e - 30000)) = false ↔ e = 0 ∨ now ≤ e - 30000
    by_cases he : e = 0
    · rw [if_pos he]
      simp [he]
    · rw [if_neg he]
      simp only [decide_eq_false_iff_not, gt_iff_lt, not_lt]
      constructor
      · intro h
        right
        omega
      · intro h
        rcases h with h | h
        · exact absurd h he
        · omega
  · unfold usesCachedToken
    rw [hexp 10000 (by omega)]
    simp
  · unfold usesCachedToken
    rw [hexp 60000 (by omega)]
    simp
  · unfold usesCachedToken
    simp


/-- Claim C8 amended, exercised at a concrete positive clock. -/
theorem claim_C8_amended_witness :
    usesCachedToken (some "tok") (some ((1000000 : Int) + 10000)) 1000000 = false ∧
    usesCachedToken (some "tok") (some ((1000000 : Int) + 60000)) 1000000 = true :=
  ⟨(claim_C8_amended 1000000 0 (by decide)).2.2.1,
   (claim_C8_amended 1000000 0 (by decide)).2.2.2.1⟩


/-- Claim C9 counterexample: a relative endpoint beginning with two slashes keeps
both of them, so the composed URL carries a double slash after the scheme even
though the base was normalized. -/
theorem claim_C9_counterexample :
    buildUrl (normalizeBaseUrl "http://b") "//x" = "http://b/api//x" ∧
    hasDoubleSlash (afterScheme ("http://b/api//x").data) = true := by
  decide


/-- Claim C9 amended: an absolute endpoint is returned unchanged; a relative
endpoint always composes to the base followed by the /api prefix; base
normalization is idempotent, so composing against a re-normalized base yields the
same URL; and the composed URL is free of double slashes after the scheme when
the normalized base and the endpoint are themselves free of them — an endpoint
with leading double slashes can still produce one. -/
theorem claim_C9_amended :
    (∀ b e : String, startsWithScheme e.data = true → buildUrl b e = e) ∧
    (∀ b e : String, startsWithScheme e.data = false →
      ∃ tail, (buildUrl b e).data = b.data ++ ('/' :: 'a' :: 'p' :: 'i' :: tail)) ∧
    (∀ b, normalizeBaseUrl (normalizeBaseUrl b) = normalizeBaseUrl b) ∧
    (∀ b e, buildUrl (normalizeBaseUrl (normalizeBaseUrl b)) e = buildUrl (normalizeBaseUrl b) e) ∧
    (∀ b e : String, startsWithScheme (normalizeBaseUrl b).data = true →
      hasDoubleSlash (afterScheme (normalizeBaseUrl b).data) = false →
      hasDoubleSlash e.data = false → startsWithScheme e.data = false →
      hasDoubleSlash (afterScheme (buildUrl (normalizeBaseUrl b) e).data) = false) := by
  refine ⟨?_, buildUrl_api_prefix, normalizeBaseUrl_idem, ?_, buildUrl_no_double_slash⟩
  · intro b e h
    unfold buildUrl
    rw [if_pos ?_]
    exact h
  · intro b e
    rw [normalizeBaseUrl_idem]


/-- Claim C9 amended, exercised: absolute pass-through, the prefixed relative
composition of the repository example, and the no-double-slash guarantee at a
normalized base. -/
theorem claim_C9_amended_witness :
    buildUrl "http://b" "https://x/y" = "https://x/y" ∧
    (∃ tail, (buildUrl "http://b" "/collections/x/records").data =
      "http://b".data ++ ('/' :: 'a' :: 'p' :: 'i' :: tail)) ∧
    hasDoubleSlash (afterScheme (buildUrl (normalizeBaseUrl "http://b/") "/collections/x").data) = false :=
  ⟨claim_C9_amended.1 "http://b" "https://x/y" (by decide),
   claim_C9_amended.2.1 "http://b" "/collections/x/records" (by decide),
   claim_C9_amended.2.2.2.2 "http://b/" "/collections/x" (by decide) (by decide) (by decide) (by decide)⟩


/-- Claim C10: an admin first-attempt error with no detectable status code is not
fatal — the legacy fallback attempt is still made — and a resolution that stops
after the single first attempt can only come from a first error carrying a
detectable nonzero status outside 404, 405 and 410. -/
theorem claim_C10 : ∀ (email pw : String) (e1 : Json) (o2 : HOutcome),
    (getStatusCode e1 = none →
      (adminAuthAttempts email pw (HOutcome.err e1) o2).1.length = 2) ∧
    ((adminAuthAttempts email pw (HOutcome.err e1) o2).1.length = 1 →
      ∃ s, getStatusCode e1 = some s ∧ s.m ≠ 0 ∧ valEqInt s 404 = false ∧
        valEqInt s 405 = false ∧ valEqInt s 410 = false) := by
  intro email pw e1 o2
  constructor
  · intro hg
    have hf : fatalStatus e1 = none := by
      unfold fatalStatus
      rw [hg]
    cases o2 with
    | ok r => simp [adminAuthAttempts, hf]
    | err e2 =>
      cases hf2 : fatalStatus e2 with
      | none => simp [adminAuthAttempts, hf, hf2]
      | some s => simp [adminAuthAttempts, hf, hf2]
  · intro hlen
    cases hf : fatalStatus e1 with
    | none =>
      exfalso
      cases o2 with
      | ok r => simp [adminAuthAttempts, hf] at hlen
      | err e2 =>
        cases hf2 : fatalStatus e2 with
        | none => simp [adminAuthAttempts, hf, hf2] at hlen
        | some s => simp [adminAuthAttempts, hf, hf2] at hlen
    | some s =>
      refine ⟨s, ?_⟩
      have h2 : getStatusCode e1 = some s ∧ s.m ≠ 0 ∧ valEqInt s 404 = false ∧
          valEqInt s 405 = false ∧ valEqInt s 410 = false := by
        unfold fatalStatus at hf
        cases hg : getStatusCode e1 with
        | none => rw [hg] at hf; exact absurd hf (by simp)
        | some s0 =>
          rw [hg] at hf
          replace hf : (if ((s0.m ≠ 0 : Bool) &&
              !(valEqInt s0 404 || valEqInt s0 405 || valEqInt s0 410)) = true
              then some s0 else none) = some s := hf
          by_cases hc : ((s0.m ≠ 0 : Bool) &&
              !(valEqInt s0 404 || valEqInt s0 405 || valEqInt s0 410)) = true
          · rw [if_pos hc] at hf
            have hs : s0 = s := Option.some.inj hf
            subst hs
            simp only [Bool.and_eq_true, Bool.not_eq_true', Bool.or_eq_false_iff,
              decide_eq_true_eq] at hc
            exact ⟨rfl, hc.1, hc.2.1.1, hc.2.1.2, hc.2.2⟩
          · rw [if_neg hc] at hf
            exact absurd hf (by simp)
      exact h2


/-- Claim C10, exercised: a first attempt failing with an empty error object — no
status anywhere — still leads to both attempts being made. -/
theorem claim_C10_witness :
    (adminAuthAttempts "admin@example.com" "pw" (HOutcome.err (jobj []))
      (HOutcome.err (jobj []))).1.length = 2 :=
  (claim_C10 "admin@example.com" "pw" (jobj []) (HOutcome.err (jobj []))).1 (by decide)


end PB
